import Mathlib

/-!
Verification of the retrieval-and-ranking text pipeline of the educational
chatbot repository.  Text is modelled as `List Char` (the sequence of UTF-16
style code points of a JavaScript string); JavaScript `Map` objects are
modelled as association lists in insertion order; JavaScript numbers that
carry exact small-integer content are modelled as `Nat`, and floating point
values that feed `Math.log` / `Math.sqrt` are modelled as real numbers.
Each definition mirrors one function of the source (`src/lib/search.ts`,
`src/lib/enhancedTTS.ts` sectioner and summarizer, and the composer module).
-/

set_option maxHeartbeats 1000000
set_option maxRecDepth 10000

namespace Chatbot

/-- Text as a list of characters. -/
abbrev Str := List Char

/-- The JavaScript whitespace class `\s`, restricted to the ASCII whitespace
characters (space, tab, newline, carriage return, vertical tab, form feed). -/
def isWs (c : Char) : Bool :=
  c == ' ' || c == '\t' || c == '\n' || c == '\r' || c == Char.ofNat 11 || c == Char.ofNat 12

/-- JavaScript `String.prototype.trim`. -/
def trimStr (s : Str) : Str :=
  ((s.dropWhile isWs).reverse.dropWhile isWs).reverse

/-- Lookup in a JavaScript `Map` (`m.get(k)`), modelled on an association list. -/
def mapGet {α : Type} (m : List (Str × α)) (k : Str) : Option α :=
  match m with
  | [] => none
  | (k0, v0) :: t => if k0 = k then some v0 else mapGet t k

/-- Update in a JavaScript `Map` (`m.set(k, v)`): replaces the value in place
when the key is present, appends the pair otherwise. -/
def mapSet {α : Type} (m : List (Str × α)) (k : Str) (v : α) : List (Str × α) :=
  match m with
  | [] => [(k, v)]
  | (k0, v0) :: t => if k0 = k then (k0, v) :: t else (k0, v0) :: mapSet t k v

/-- Lowercase ASCII letter or digit (the class `[a-z0-9]`). -/
def isLowAl (c : Char) : Bool :=
  decide (97 ≤ c.toNat ∧ c.toNat ≤ 122) || decide (48 ≤ c.toNat ∧ c.toNat ≤ 57)

/-- ASCII digit. -/
def isDigitCh (c : Char) : Bool := decide (48 ≤ c.toNat ∧ c.toNat ≤ 57)

/-- ASCII uppercase letter (the class `[A-Z]`). -/
def isUpperCh (c : Char) : Bool := decide (65 ≤ c.toNat ∧ c.toNat ≤ 90)

/-- One character of `text.toLowerCase().replace(/[^a-z0-9\s]/g, ' ')`. -/
def tokChar (c : Char) : Char :=
  let l := c.toLower
  if isLowAl l then l else if isWs l then l else ' '

/-- Split on runs of characters satisfying `p`, dropping empty pieces; this is
`split(/\s+/).filter(Boolean)` when `p` is the whitespace class. -/
def wordsByGo (p : Char → Bool) : Str → Str → List Str
  | acc, [] => if acc = [] then [] else [acc.reverse]
  | acc, c :: t =>
    if p c then
      if acc = [] then wordsByGo p [] t else acc.reverse :: wordsByGo p [] t
    else wordsByGo p (c :: acc) t

/-- `tokenize` from `search.ts`:
`text.toLowerCase().replace(/[^a-z0-9\s]/g, ' ').split(/\s+/).filter(Boolean)`. -/
def tokenize (s : Str) : List Str :=
  wordsByGo isWs [] (s.map tokChar)

/-- Increment of a counting map: `m.set(t, (m.get(t) || 0) + 1)`. -/
def bumpMap (m : List (Str × ℕ)) (t : Str) : List (Str × ℕ) :=
  mapSet m t ((mapGet m t).getD 0 + 1)

/-- The document-frequency table built by `tfidfParagraphs`: for each tokenized
paragraph the set of its distinct tokens bumps the counter once. -/
def dfMapOf (docs : List (List Str)) : List (Str × ℕ) :=
  docs.foldl (fun m d => d.dedup.foldl bumpMap m) []

/-- The term-frequency map of one tokenized document. -/
def tfMapOf (d : List Str) : List (Str × ℕ) := d.foldl bumpMap []

/-- The smoothed inverse document frequency
`Math.log((N + 1) / ((df.get(t) || 0) + 1)) + 1`. -/
noncomputable def idfOf (N : ℕ) (df : List (Str × ℕ)) (t : Str) : ℝ :=
  Real.log ((N + 1 : ℝ) / (((mapGet df t).getD 0 : ℝ) + 1)) + 1

/-- The weighted vector of one tokenized document: iterate over the
term-frequency map and set `vec[t] = f * idf`. -/
noncomputable def vecOfDoc (N : ℕ) (df : List (Str × ℕ)) (d : List Str) : List (Str × ℝ) :=
  (tfMapOf d).foldl (fun v p => mapSet v p.1 ((p.2 : ℝ) * idfOf N df p.1)) []

/-- `tfidfParagraphs` from `search.ts`: returns the per-paragraph vectors and
the document-frequency table (the `vocabulary`). -/
noncomputable def tfidfParagraphs (paragraphs : List Str) :
    List (List (Str × ℝ)) × List (Str × ℕ) :=
  let docs := paragraphs.map tokenize
  let df := dfMapOf docs
  let N := docs.length
  (docs.map (vecOfDoc N df), df)

/-- `vectorizeQuery` from `search.ts`: the same per-document weighting applied
to the tokenized query against an existing table and corpus size. -/
noncomputable def vectorizeQuery (q : Str) (df : List (Str × ℕ)) (N : ℕ) : List (Str × ℝ) :=
  vecOfDoc N df (tokenize q)

/-- The dot product loop of `cosine`: missing keys contribute 0. -/
noncomputable def dotProd (a b : List (Str × ℝ)) : ℝ :=
  a.foldl (fun acc p => acc + p.2 * ((mapGet b p.1).getD 0)) 0

/-- The squared norm accumulated by `cosine` over one vector. -/
noncomputable def normSq (a : List (Str × ℝ)) : ℝ :=
  a.foldl (fun acc p => acc + p.2 * p.2) 0

/-- The epsilon `1e-8` added to the denominator of `cosine`. -/
noncomputable def cosEps : ℝ := 1 / 100000000

/-- `cosine` from `search.ts`:
`dot / (Math.sqrt(na) * Math.sqrt(nb) + 1e-8)`. -/
noncomputable def cosine (a b : List (Str × ℝ)) : ℝ :=
  dotProd a b / (Real.sqrt (normSq a) * Real.sqrt (normSq b) + cosEps)

/-- Keys of an association list are pairwise distinct (always true for lists
arising from JavaScript `Map` objects). -/
abbrev keysNodup {α : Type} (m : List (Str × α)) : Prop :=
  (m.map Prod.fst).Nodup

end Chatbot

namespace Chatbot

/-- Occurrence count of a token in a token list (used to reason about the
counting maps without committing to a `BEq` instance). -/
def cntTok (t : Str) (l : List Str) : ℕ := l.countP (fun x => decide (x = t))

theorem cntTok_nil (t : Str) : cntTok t [] = 0 := rfl

theorem cntTok_cons (t h : Str) (l : List Str) :
    cntTok t (h :: l) = cntTok t l + if h = t then 1 else 0 := by
  simp [cntTok, List.countP_cons]

theorem cntTok_eq_zero_of_not_mem (t : Str) (l : List Str) (h : t ∉ l) :
    cntTok t l = 0 := by
  induction l with
  | nil => rfl
  | cons c tl ih =>
    rw [cntTok_cons, ih (fun hm => h (List.mem_cons_of_mem _ hm)),
      if_neg (fun hc => h (by rw [← hc]; exact List.mem_cons_self c tl))]

theorem cntTok_eq_one_of_nodup_mem (t : Str) (l : List Str)
    (hnd : l.Nodup) (hm : t ∈ l) : cntTok t l = 1 := by
  induction l with
  | nil => simp at hm
  | cons c tl ih =>
    rcases List.mem_cons.mp hm with hc | hc
    · subst hc
      rw [cntTok_cons, if_pos rfl,
        cntTok_eq_zero_of_not_mem _ _ (List.nodup_cons.mp hnd).1]
    · rw [cntTok_cons, ih (List.Nodup.of_cons hnd) hc,
        if_neg (fun he => (List.nodup_cons.mp hnd).1 (by rw [he]; exact hc))]

theorem cntTok_pos_of_mem (t : Str) (l : List Str) (hm : t ∈ l) :
    0 < cntTok t l := by
  induction l with
  | nil => simp at hm
  | cons c tl ih =>
    rcases List.mem_cons.mp hm with hc | hc
    · subst hc; rw [cntTok_cons, if_pos rfl]; omega
    · rw [cntTok_cons]; have := ih hc; omega

theorem mapGet_nil {α : Type} (k : Str) : mapGet ([] : List (Str × α)) k = none := rfl

theorem mapGet_mapSet_self {α : Type} (m : List (Str × α)) (k : Str) (v : α) :
    mapGet (mapSet m k v) k = some v := by
  induction m with
  | nil => simp [mapGet, mapSet]
  | cons h t ih =>
    obtain ⟨k0, v0⟩ := h
    by_cases hk : k0 = k
    · subst hk; simp [mapGet, mapSet]
    · simp [mapGet, mapSet, hk, ih]

theorem mapGet_mapSet_ne {α : Type} (m : List (Str × α)) (k : Str) (v : α) (k' : Str)
    (h : k' ≠ k) : mapGet (mapSet m k v) k' = mapGet m k' := by
  have h' : k ≠ k' := fun hh => h hh.symm
  induction m with
  | nil => simp [mapGet, mapSet, h']
  | cons p t ih =>
    obtain ⟨k0, v0⟩ := p
    by_cases hk : k0 = k
    · subst hk; simp [mapGet, mapSet, h']
    · by_cases hk' : k0 = k'
      · subst hk'; simp [mapGet, mapSet, hk]
      · simp [mapGet, mapSet, hk, hk', ih]

theorem mapGet_bumpMap (m : List (Str × ℕ)) (t t' : Str) :
    mapGet (bumpMap m t) t' =
      if t' = t then some ((mapGet m t).getD 0 + 1) else mapGet m t' := by
  by_cases h : t' = t
  · subst h; simp [bumpMap, mapGet_mapSet_self]
  · simp [bumpMap, h, mapGet_mapSet_ne m t _ t' h]

theorem getD_foldl_bumpMap (l : List Str) (m : List (Str × ℕ)) (t : Str) :
    (mapGet (l.foldl bumpMap m) t).getD 0 = (mapGet m t).getD 0 + cntTok t l := by
  induction l generalizing m with
  | nil => simp [cntTok_nil]
  | cons h tl ih =>
    simp only [List.foldl_cons, ih, mapGet_bumpMap, cntTok_cons]
    by_cases ht : t = h
    · subst ht; rw [if_pos rfl, if_pos rfl, Option.getD_some]; omega
    · rw [if_neg ht, if_neg (fun hh => ht hh.symm)]; omega

theorem mapGet_foldl_bumpMap_isNone (l : List Str) (m : List (Str × ℕ)) (t : Str) :
    (mapGet (l.foldl bumpMap m) t).isNone ↔ (mapGet m t).isNone ∧ t ∉ l := by
  induction l generalizing m with
  | nil => simp
  | cons h tl ih =>
    simp only [List.foldl_cons, ih, mapGet_bumpMap, List.mem_cons]
    by_cases ht : t = h
    · subst ht; simp
    · simp [ht]

theorem tfMap_getD (d : List Str) (t : Str) :
    (mapGet (tfMapOf d) t).getD 0 = cntTok t d := by
  have := getD_foldl_bumpMap d [] t
  simpa [tfMapOf, mapGet] using this

theorem tfMap_char (d : List Str) (t : Str) :
    mapGet (tfMapOf d) t = if t ∈ d then some (cntTok t d) else none := by
  have hn := mapGet_foldl_bumpMap_isNone d [] t
  have hg := tfMap_getD d t
  by_cases hm : t ∈ d
  · cases hval : mapGet (tfMapOf d) t with
    | none =>
      have hv2 : (mapGet (List.foldl bumpMap [] d) t).isNone := by
        simp only [tfMapOf] at hval; simp [hval]
      exact absurd (hn.mp hv2).2 (by simpa using hm)
    | some v =>
      rw [hval] at hg
      simp only [Option.getD_some] at hg
      simp [hm, hg]
  · have hno : (mapGet (tfMapOf d) t).isNone := by
      simp only [tfMapOf]
      exact hn.mpr ⟨by simp [mapGet], hm⟩
    cases hval : mapGet (tfMapOf d) t with
    | none => simp [hm]
    | some v => rw [hval] at hno; simp at hno

theorem dfMap_getD (docs : List (List Str)) (t : Str) :
    (mapGet (dfMapOf docs) t).getD 0 = docs.countP (fun d => decide (t ∈ d)) := by
  suffices h : ∀ (m : List (Str × ℕ)),
      (mapGet (docs.foldl (fun m d => d.dedup.foldl bumpMap m) m) t).getD 0 =
        (mapGet m t).getD 0 + docs.countP (fun d => decide (t ∈ d)) by
    have := h []
    simpa [dfMapOf, mapGet] using this
  induction docs with
  | nil => simp
  | cons d tl ih =>
    intro m
    simp only [List.foldl_cons, ih, getD_foldl_bumpMap, List.countP_cons]
    have hcnt : cntTok t d.dedup = if t ∈ d then 1 else 0 := by
      by_cases hm : t ∈ d
      · rw [if_pos hm]
        exact cntTok_eq_one_of_nodup_mem _ _ d.nodup_dedup (List.mem_dedup.mpr hm)
      · rw [if_neg hm]
        exact cntTok_eq_zero_of_not_mem _ _ (fun hc => hm (List.mem_dedup.mp hc))
    rw [hcnt]
    by_cases hm : t ∈ d
    · rw [if_pos hm, if_pos (by simpa using hm)]; omega
    · rw [if_neg hm, if_neg (by simpa using hm)]; omega

theorem mapGet_eq_none_iff {α : Type} (m : List (Str × α)) (t : Str) :
    mapGet m t = none ↔ t ∉ m.map Prod.fst := by
  induction m with
  | nil => simp [mapGet]
  | cons p tl ih =>
    obtain ⟨k0, v0⟩ := p
    by_cases hk : k0 = t
    · subst hk
      simp only [mapGet, if_pos rfl, List.map_cons]
      constructor
      · intro h; cases h
      · intro h; exact absurd (List.mem_cons_self _ _) h
    · simp only [mapGet, if_neg hk, ih, List.map_cons, List.mem_cons]
      constructor
      · rintro hnm (h1 | h2)
        · exact hk h1.symm
        · exact hnm h2
      · intro hnm h2
        exact hnm (Or.inr h2)

theorem mem_of_mapGet_eq_some {α : Type} (m : List (Str × α)) (t : Str) (v : α)
    (h : mapGet m t = some v) : (t, v) ∈ m := by
  induction m with
  | nil => simp [mapGet] at h
  | cons p tl ih =>
    obtain ⟨k0, v0⟩ := p
    by_cases hk : k0 = t
    · subst hk
      have h2 : v0 = v := by simpa [mapGet] using h
      subst h2
      exact List.mem_cons_self _ _
    · simp only [mapGet, if_neg hk] at h
      exact List.mem_cons_of_mem _ (ih h)

theorem keys_mapSet {α : Type} (m : List (Str × α)) (k : Str) (v : α) :
    (mapSet m k v).map Prod.fst =
      if k ∈ m.map Prod.fst then m.map Prod.fst else m.map Prod.fst ++ [k] := by
  induction m with
  | nil => simp [mapSet]
  | cons p tl ih =>
    obtain ⟨k0, v0⟩ := p
    by_cases hk : k0 = k
    · subst hk
      have hset : mapSet ((k0, v0) :: tl) k0 v = (k0, v) :: tl := by
        simp [mapSet]
      rw [hset, List.map_cons, List.map_cons, if_pos (List.mem_cons_self _ _)]
    · have hk' : ¬ (k = k0) := fun hh => hk hh.symm
      simp only [mapSet, if_neg hk, List.map_cons, ih, List.mem_cons]
      by_cases hmem : k ∈ tl.map Prod.fst
      · rw [if_pos hmem, if_pos (Or.inr hmem)]
      · rw [if_neg hmem, if_neg (by rintro (h1 | h2); exact hk' h1; exact hmem h2),
          List.cons_append]

theorem keysNodup_mapSet {α : Type} (m : List (Str × α)) (k : Str) (v : α)
    (h : keysNodup m) : keysNodup (mapSet m k v) := by
  unfold keysNodup at *
  rw [keys_mapSet]
  by_cases hmem : k ∈ m.map Prod.fst
  · rw [if_pos hmem]; exact h
  · rw [if_neg hmem]
    refine List.Nodup.append h (List.nodup_singleton k) ?_
    intro a ha hb
    rw [List.mem_singleton] at hb
    subst hb
    exact hmem ha

theorem keysNodup_foldl_bumpMap (l : List Str) (m : List (Str × ℕ))
    (h : keysNodup m) : keysNodup (l.foldl bumpMap m) := by
  induction l generalizing m with
  | nil => exact h
  | cons c tl ih => exact ih _ (keysNodup_mapSet _ _ _ h)

theorem keysNodup_tfMap (d : List Str) : keysNodup (tfMapOf d) :=
  keysNodup_foldl_bumpMap d [] (by simp [keysNodup])

theorem mapGet_foldl_mapSet_not_mem {α β : Type} (l : List (Str × α))
    (g : Str × α → β) (acc : List (Str × β)) (t : Str)
    (h : t ∉ l.map Prod.fst) :
    mapGet (l.foldl (fun v p => mapSet v p.1 (g p)) acc) t = mapGet acc t := by
  induction l generalizing acc with
  | nil => rfl
  | cons p tl ih =>
    simp only [List.map_cons, List.mem_cons] at h
    push_neg at h
    simp only [List.foldl_cons]
    rw [ih (mapSet acc p.1 (g p)) h.2, mapGet_mapSet_ne _ _ _ _ h.1]

theorem mapGet_foldl_mapSet_mem {α β : Type} (l : List (Str × α))
    (g : Str × α → β) (acc : List (Str × β)) (p : Str × α)
    (hnd : keysNodup l) (hp : p ∈ l) :
    mapGet (l.foldl (fun v q => mapSet v q.1 (g q)) acc) p.1 = some (g p) := by
  induction l generalizing acc with
  | nil => simp at hp
  | cons q tl ih =>
    have hnd2 : (q.1 :: tl.map Prod.fst).Nodup := by
      have h2 := hnd
      unfold keysNodup at h2
      rwa [List.map_cons] at h2
    rcases List.mem_cons.mp hp with hq | hq
    · subst hq
      simp only [List.foldl_cons]
      have hnotin : p.1 ∉ tl.map Prod.fst := (List.nodup_cons.mp hnd2).1
      rw [mapGet_foldl_mapSet_not_mem _ _ _ _ hnotin, mapGet_mapSet_self]
    · simp only [List.foldl_cons]
      exact ih (mapSet acc q.1 (g q)) (List.Nodup.of_cons hnd2) hq

theorem vecOfDoc_get (N : ℕ) (df : List (Str × ℕ)) (d : List Str) (t : Str) :
    mapGet (vecOfDoc N df d) t =
      (mapGet (tfMapOf d) t).map (fun f => (f : ℝ) * idfOf N df t) := by
  cases hval : mapGet (tfMapOf d) t with
  | none =>
    have hni : t ∉ (tfMapOf d).map Prod.fst := (mapGet_eq_none_iff _ _).mp hval
    simp [vecOfDoc, mapGet_foldl_mapSet_not_mem _ _ _ _ hni, mapGet_nil]
  | some f =>
    have hmem : (t, f) ∈ tfMapOf d := mem_of_mapGet_eq_some _ _ _ hval
    have := mapGet_foldl_mapSet_mem (tfMapOf d)
      (fun p => (p.2 : ℝ) * idfOf N df p.1) [] (t, f) (keysNodup_tfMap d) hmem
    simpa [vecOfDoc] using this

end Chatbot

namespace Chatbot

/-- Spec-side raw term frequency: the count of a token within one tokenized
paragraph. -/
def termFreq (t : Str) (text : Str) : ℕ := cntTok t (tokenize text)

/-- Spec-side document frequency: the number of paragraphs of the corpus whose
token list contains the term. -/
def docFreq (t : Str) (paragraphs : List Str) : ℕ :=
  paragraphs.countP (fun p => decide (t ∈ tokenize p))

theorem tfidf_first_length (paragraphs : List Str) :
    (tfidfParagraphs paragraphs).1.length = paragraphs.length := by
  simp [tfidfParagraphs]

theorem tfidf_vocab_getD (paragraphs : List Str) (t : Str) :
    (mapGet (tfidfParagraphs paragraphs).2 t).getD 0 = docFreq t paragraphs := by
  simp only [tfidfParagraphs, dfMap_getD, docFreq, List.countP_map]
  rfl

theorem vecOfDoc_get_formula (N : ℕ) (df : List (Str × ℕ)) (text : Str) (t : Str) :
    mapGet (vecOfDoc N df (tokenize text)) t =
      if t ∈ tokenize text then
        some ((termFreq t text : ℝ) *
          (Real.log ((N + 1 : ℝ) / (((mapGet df t).getD 0 : ℝ) + 1)) + 1))
      else none := by
  rw [vecOfDoc_get, tfMap_char]
  by_cases hm : t ∈ tokenize text
  · simp [hm, termFreq, idfOf]
  · simp [hm]

/-- CLAIM C6. For every paragraph corpus, `tfidfParagraphs` assigns each term
of a paragraph the weight `termFrequency * (ln((N+1)/(documentFrequency+1)) + 1)`
with the document frequency taken over the same corpus, and `vectorizeQuery`
applies the same formula with term frequency from the query text alone and
document frequency read from the given table, so a query term unseen in the
corpus gets weight `termFrequency * (ln(N+1) + 1)`. -/
theorem tfidf_weight_formula :
    (∀ (paragraphs : List Str) (i : ℕ) (t : Str),
      1 ≤ paragraphs.length → i < paragraphs.length →
      mapGet ((tfidfParagraphs paragraphs).1.getD i []) t =
        (if t ∈ tokenize (paragraphs.getD i []) then
          some ((termFreq t (paragraphs.getD i []) : ℝ) *
            (Real.log (((paragraphs.length : ℝ) + 1) / ((docFreq t paragraphs : ℝ) + 1)) + 1))
        else none)) ∧
    (∀ (q : Str) (df : List (Str × ℕ)) (N : ℕ) (t : Str),
      (mapGet (vectorizeQuery q df N) t =
        if t ∈ tokenize q then
          some ((termFreq t q : ℝ) *
            (Real.log (((N : ℝ) + 1) / (((mapGet df t).getD 0 : ℝ) + 1)) + 1))
        else none) ∧
      (mapGet df t = none →
        mapGet (vectorizeQuery q df N) t =
          if t ∈ tokenize q then
            some ((termFreq t q : ℝ) * (Real.log ((N : ℝ) + 1) + 1))
          else none)) := by
  constructor
  · intro paragraphs i t _ hi
    have hvec : (tfidfParagraphs paragraphs).1 =
        (paragraphs.map tokenize).map
          (vecOfDoc (paragraphs.map tokenize).length (dfMapOf (paragraphs.map tokenize))) := rfl
    have hgd : (tfidfParagraphs paragraphs).1.getD i [] =
        vecOfDoc (paragraphs.map tokenize).length (dfMapOf (paragraphs.map tokenize))
          (tokenize (paragraphs.getD i [])) := by
      rw [hvec]
      rw [List.getD_eq_getElem?_getD, List.getElem?_map, List.getElem?_map]
      rw [List.getElem?_eq_getElem hi]
      simp [List.getD_eq_getElem?_getD, List.getElem?_eq_getElem hi]
    rw [hgd, vecOfDoc_get_formula]
    have hdf : (mapGet (dfMapOf (paragraphs.map tokenize)) t).getD 0 = docFreq t paragraphs := by
      rw [dfMap_getD, docFreq, List.countP_map]
      rfl
    rw [hdf, List.length_map]
  · intro q df N t
    constructor
    · exact vecOfDoc_get_formula N df q t
    · intro hnone
      have h2 := vecOfDoc_get_formula N df q t
      rw [hnone] at h2
      simpa using h2

/-- Closed witness for the hypotheses of `tfidf_weight_formula`, evaluated on a
two-paragraph corpus and on a query term absent from a table. -/
theorem tfidf_weight_formula_witness :
    mapGet ((tfidfParagraphs ["hello world".data, "hello there".data]).1.getD 0 []) "hello".data =
      some ((termFreq "hello".data "hello world".data : ℝ) *
        (Real.log (((2 : ℝ) + 1) / ((docFreq "hello".data ["hello world".data, "hello there".data] : ℝ) + 1)) + 1)) ∧
    mapGet (vectorizeQuery "sun".data [] 2) "sun".data =
      some ((termFreq "sun".data "sun".data : ℝ) * (Real.log ((2 : ℝ) + 1) + 1)) := by
  constructor
  · have h := tfidf_weight_formula.1 ["hello world".data, "hello there".data] 0 "hello".data
      (by decide) (by decide)
    rw [h]
    rw [if_pos (by decide)]
    norm_num
  · have h := (tfidf_weight_formula.2 "sun".data [] 2 "sun".data).2 rfl
    rw [h]
    rw [if_pos (by decide)]
    norm_num

end Chatbot

namespace Chatbot

theorem foldl_add_map {α : Type} (f : α → ℝ) (c : ℝ) (l : List α) :
    l.foldl (fun acc p => acc + f p) c = c + (l.map f).sum := by
  induction l generalizing c with
  | nil => simp
  | cons h t ih => rw [List.foldl_cons, ih, List.map_cons, List.sum_cons]; ring

theorem dotProd_eq_sum (a b : List (Str × ℝ)) :
    dotProd a b = (a.map (fun p => p.2 * ((mapGet b p.1).getD 0))).sum := by
  rw [dotProd, foldl_add_map]; ring

theorem normSq_eq_sum (a : List (Str × ℝ)) :
    normSq a = (a.map (fun p => p.2 * p.2)).sum := by
  rw [normSq, foldl_add_map]; ring

theorem normSq_nonneg (a : List (Str × ℝ)) : 0 ≤ normSq a := by
  rw [normSq_eq_sum]
  apply List.sum_nonneg
  intro x hx
  rcases List.mem_map.mp hx with ⟨p, _, hp⟩
  rw [← hp]
  exact mul_self_nonneg _

theorem mapGet_self_of_keysNodup (v : List (Str × ℝ)) (hnd : keysNodup v)
    (p : Str × ℝ) (hp : p ∈ v) : mapGet v p.1 = some p.2 := by
  induction v with
  | nil => simp at hp
  | cons q tl ih =>
    have hnd2 : (q.1 :: tl.map Prod.fst).Nodup := by
      have h2 := hnd
      unfold keysNodup at h2
      rwa [List.map_cons] at h2
    rcases List.mem_cons.mp hp with hq | hq
    · subst hq
      obtain ⟨k, x⟩ := p
      simp [mapGet]
    · obtain ⟨k0, v0⟩ := q
      have hne : k0 ≠ p.1 := by
        intro he
        have hmm : p.1 ∈ tl.map Prod.fst := List.mem_map_of_mem Prod.fst hq
        rw [← he] at hmm
        exact (List.nodup_cons.mp hnd2).1 hmm
      simp only [mapGet, if_neg hne]
      exact ih (List.Nodup.of_cons hnd2) hq

theorem dotProd_self (v : List (Str × ℝ)) (hnd : keysNodup v) :
    dotProd v v = normSq v := by
  rw [dotProd_eq_sum, normSq_eq_sum]
  apply congrArg
  apply List.map_congr_left
  intro p hp
  rw [mapGet_self_of_keysNodup v hnd p hp]
  rfl

theorem dotProd_nil_right (v : List (Str × ℝ)) : dotProd v [] = 0 := by
  rw [dotProd_eq_sum]
  apply List.sum_eq_zero
  intro x hx
  rcases List.mem_map.mp hx with ⟨p, _, hp⟩
  rw [← hp, mapGet_nil]
  simp

theorem cosEps_pos : 0 < cosEps := by unfold cosEps; norm_num

/-- CLAIM C7. Self-similarity of a non-zero vector is maximal up to the
denominator epsilon (it equals `n/(n+eps)`, lies strictly below 1 and at
least `1 - eps/n` where `n` is the squared norm), and the cosine of any
vector against the all-zero vector is exactly 0, on either side. -/
theorem cosine_self_and_zero :
    ∀ v : List (Str × ℝ),
      (keysNodup v → 0 < normSq v →
        cosine v v = normSq v / (normSq v + cosEps) ∧
        1 - cosEps / normSq v ≤ cosine v v ∧ cosine v v < 1) ∧
      cosine v [] = 0 ∧ cosine [] v = 0 := by
  intro v
  refine ⟨?_, ?_, ?_⟩
  · intro hnd hpos
    have hsqrt : Real.sqrt (normSq v) * Real.sqrt (normSq v) = normSq v :=
      Real.mul_self_sqrt (normSq_nonneg v)
    have hcos : cosine v v = normSq v / (normSq v + cosEps) := by
      rw [cosine, dotProd_self v hnd, hsqrt]
    refine ⟨hcos, ?_, ?_⟩
    · rw [hcos]
      have hde : 0 < normSq v + cosEps := by
        have := cosEps_pos; linarith
      have heq : normSq v / (normSq v + cosEps) = 1 - cosEps / (normSq v + cosEps) := by
        field_simp
      rw [heq]
      have hle : cosEps / (normSq v + cosEps) ≤ cosEps / normSq v := by
        apply div_le_div_of_nonneg_left (le_of_lt cosEps_pos) hpos
        linarith [cosEps_pos]
      linarith
    · rw [hcos]
      have hde : 0 < normSq v + cosEps := by
        have := cosEps_pos; linarith
      rw [div_lt_one hde]
      linarith [cosEps_pos]
  · rw [cosine, dotProd_nil_right]
    exact zero_div _
  · rw [cosine]
    have h0 : dotProd [] v = 0 := by rw [dotProd_eq_sum]; simp
    rw [h0]
    exact zero_div _

/-- Closed witness for the hypotheses of `cosine_self_and_zero`, applied to the
one-entry vector with weight 2. -/
theorem cosine_self_and_zero_witness :
    cosine [("a".data, (2 : ℝ))] [("a".data, (2 : ℝ))] =
      normSq [("a".data, (2 : ℝ))] / (normSq [("a".data, (2 : ℝ))] + cosEps) ∧
    cosine [("a".data, (2 : ℝ))] [] = 0 := by
  have hpos : 0 < normSq [("a".data, (2 : ℝ))] := by
    rw [normSq_eq_sum]
    norm_num
  have h := cosine_self_and_zero [("a".data, (2 : ℝ))]
  exact ⟨(h.1 (by simp [keysNodup]) hpos).1, h.2.1⟩

end Chatbot

namespace Chatbot

theorem dropWhile_length_le (p : Char → Bool) (l : Str) :
    (l.dropWhile p).length ≤ l.length := by
  induction l with
  | nil => simp
  | cons c t ih =>
    rw [List.dropWhile_cons]
    by_cases h : p c = true
    · rw [if_pos h]; simp only [List.length_cons]; omega
    · rw [if_neg h]

/-- Sentence-ending punctuation, the lookbehind class `[.!?]` of the
summarizer split `/(?<=[.!?])\s+/`. -/
def isSentEnd (c : Char) : Bool := c == '.' || c == '!' || c == '?'

/-- Whether the previously consumed character (head of the reversed
accumulator) is sentence-ending punctuation. -/
def headSentEnd : Str → Bool
  | [] => false
  | p :: _ => isSentEnd p

/-- Scanner for `text.split(/(?<=[.!?])\s+/)`: a maximal whitespace run that
immediately follows sentence punctuation is a separator.  The Boolean flag is
the skipping state that consumes the remainder of the separator run. -/
def ssGo : Bool → Str → Str → List Str
  | _, acc, [] => [acc.reverse]
  | true, acc, c :: t =>
    if isWs c then ssGo true acc t
    else ssGo false [c] t
  | false, acc, c :: t =>
    if isWs c && headSentEnd acc then
      acc.reverse :: ssGo true [] t
    else ssGo false (c :: acc) t

/-- `text.split(/(?<=[.!?])\s+/)` of the summarizer. -/
def splitSentencesRaw (s : Str) : List Str := ssGo false [] s

/-- The summarizer sentence list:
`text.split(/(?<=[.!?])\s+/).filter(s => s.trim().length > 0)`. -/
def sentencesOf (s : Str) : List Str :=
  (splitSentencesRaw s).filter (fun x => decide (trimStr x ≠ []))

/-- One sentence score of the summarizer: the sum over the tokens of the
sentence of `1 / (freq.get(w) || 1)`; the exact rational value models the
JavaScript float. -/
def scoreSent (freq : List (Str × ℕ)) (s : Str) : ℚ :=
  ((tokenize s).map (fun w =>
    (1 : ℚ) / (let f := (mapGet freq w).getD 0; if f = 0 then 1 else (f : ℚ)))).sum

/-- `generateExtractiveSummary` from the summarizer module: texts of at most 3
sentences are returned trimmed; otherwise the
`min(6, ceil(sentenceCount * 0.25))` best-scoring sentences are selected and
re-joined in original order.  `Math.ceil(n * 0.25)` is exactly `(n + 3) / 4`
in natural division because `n * 0.25` is exact in binary floating point. -/
def generateExtractiveSummary (text : Str) : Str :=
  let sentences := sentencesOf text
  if sentences.length ≤ 3 then trimStr text
  else
    let freq := tfMapOf (tokenize text)
    let scores := sentences.mapIdx (fun i s => (i, scoreSent freq s))
    let sorted := scores.mergeSort (fun a b => decide (b.2 ≤ a.2))
    let pick := ((sorted.take (min 6 ((sentences.length + 3) / 4))).map Prod.fst).mergeSort
      (fun a b => decide (a ≤ b))
    List.intercalate " ".data (pick.map (fun i => sentences.getD i []))

/-- CLAIM C8. For every text splitting into at most 3 sentences the extractive
summarizer is a no-op: it returns the trimmed input. -/
theorem summary_noop_short (text : Str) (h : (sentencesOf text).length ≤ 3) :
    generateExtractiveSummary text = trimStr text := by
  unfold generateExtractiveSummary
  rw [if_pos h]

/-- Closed witness for `summary_noop_short` on a concrete two-sentence text. -/
theorem summary_noop_short_witness :
    (sentencesOf "Hello there. Nice day.".data).length ≤ 3 ∧
    generateExtractiveSummary "Hello there. Nice day.".data =
      trimStr "Hello there. Nice day.".data :=
  ⟨by decide, summary_noop_short _ (by decide)⟩

end Chatbot

namespace Chatbot

theorem pairwise_lt_map_pred (idx : List ℕ) (h1 : ∀ i ∈ idx, 1 ≤ i)
    (h2 : idx.Pairwise (· < ·)) :
    (idx.map (fun i => i - 1)).Pairwise (· < ·) := by
  induction idx with
  | nil => simp
  | cons i rest ih =>
    rw [List.map_cons, List.pairwise_cons]
    rcases List.pairwise_cons.mp h2 with ⟨hhead, htail⟩
    refine ⟨?_, ih (fun j hj => h1 j (List.mem_cons_of_mem _ hj)) htail⟩
    intro b hb
    rcases List.mem_map.mp hb with ⟨j, hj, hj'⟩
    have hij : i < j := hhead j hj
    have hi1 : 1 ≤ i := h1 i (List.mem_cons_self _ _)
    omega

theorem map_getD_sublist {α : Type} (l : List α) (d : α) (idx : List ℕ)
    (hlt : idx.Pairwise (· < ·)) (hbd : ∀ i ∈ idx, i < l.length) :
    (idx.map (fun i => l.getD i d)).Sublist l := by
  induction l generalizing idx with
  | nil =>
    cases idx with
    | nil => simp
    | cons i rest =>
      exact absurd (hbd i (List.mem_cons_self _ _)) (by simp)
  | cons a l' ih =>
    cases idx with
    | nil => simp
    | cons i rest =>
      rcases List.pairwise_cons.mp hlt with ⟨hhead, htail⟩
      cases i with
      | zero =>
        have hge1 : ∀ j ∈ rest, 1 ≤ j := fun j hj => hhead j hj
        have hmapeq : rest.map (fun j => (a :: l').getD j d) =
            (rest.map (fun j => j - 1)).map (fun j => l'.getD j d) := by
          rw [List.map_map]
          apply List.map_congr_left
          intro j hj
          have : 1 ≤ j := hge1 j hj
          obtain ⟨m, rfl⟩ : ∃ m, j = m + 1 := ⟨j - 1, by omega⟩
          simp [List.getD_cons_succ]
        rw [List.map_cons, List.getD_cons_zero, hmapeq]
        refine List.Sublist.cons₂ a (ih (rest.map (fun j => j - 1))
          (pairwise_lt_map_pred rest hge1 htail) ?_)
        intro j hj
        rcases List.mem_map.mp hj with ⟨j0, hj0, hj0'⟩
        have hg1 := hge1 j0 hj0
        have hb := hbd j0 (List.mem_cons_of_mem _ hj0)
        simp only [List.length_cons] at hb
        omega
      | succ m =>
        have hge1 : ∀ j ∈ (m + 1) :: rest, 1 ≤ j := by
          intro j hj
          rcases List.mem_cons.mp hj with hj | hj
          · omega
          · have := hhead j hj; omega
        have hmapeq : ((m + 1) :: rest).map (fun j => (a :: l').getD j d) =
            (((m + 1) :: rest).map (fun j => j - 1)).map (fun j => l'.getD j d) := by
          rw [List.map_map]
          apply List.map_congr_left
          intro j hj
          have : 1 ≤ j := hge1 j hj
          obtain ⟨m0, rfl⟩ : ∃ m0, j = m0 + 1 := ⟨j - 1, by omega⟩
          simp [List.getD_cons_succ]
        rw [hmapeq]
        refine List.Sublist.cons a (ih (((m + 1) :: rest).map (fun j => j - 1))
          (pairwise_lt_map_pred _ hge1 hlt) ?_)
        intro j hj
        rcases List.mem_map.mp hj with ⟨j0, hj0, hj0'⟩
        have hg1 := hge1 j0 hj0
        have hb := hbd j0 hj0
        simp only [List.length_cons] at hb
        omega

end Chatbot

namespace Chatbot

theorem scores_map_fst (sent : List Str) (freq : List (Str × ℕ)) :
    (sent.mapIdx (fun i s => (i, scoreSent freq s))).map Prod.fst =
      List.range sent.length := by
  rw [List.mapIdx_eq_enum_map, List.map_map]
  have hcomp : (Prod.fst ∘ Function.uncurry fun i s => (i, scoreSent freq s)) =
      (Prod.fst : ℕ × Str → ℕ) := by
    funext p; rfl
  rw [hcomp, List.enum_map_fst]

theorem scores_mem_val (sent : List Str) (freq : List (Str × ℕ)) (p : ℕ × ℚ)
    (hp : p ∈ sent.mapIdx (fun i s => (i, scoreSent freq s))) :
    p.1 < sent.length ∧ p.2 = scoreSent freq (sent.getD p.1 []) := by
  rw [List.mapIdx_eq_enum_map] at hp
  rcases List.mem_map.mp hp with ⟨⟨i, s⟩, hmem, heq⟩
  rcases List.mem_enum hmem with ⟨hlt, hs⟩
  rw [← heq]
  refine ⟨hlt, ?_⟩
  show scoreSent freq s = scoreSent freq (sent.getD i [])
  rw [List.getD_eq_getElem sent [] hlt, hs]

theorem scores_getElem (sent : List Str) (freq : List (Str × ℕ)) (j : ℕ)
    (hj : j < sent.length) :
    (j, scoreSent freq (sent.getD j [])) ∈
      sent.mapIdx (fun i s => (i, scoreSent freq s)) := by
  rw [List.mapIdx_eq_enum_map]
  have hl : j < sent.enum.length := by rw [List.enum_length]; exact hj
  have hjj : sent.enum[j] = (j, sent[j]) := List.getElem_enum sent j hl
  have hmm := List.mem_map_of_mem (Function.uncurry fun i s => (i, scoreSent freq s))
    (List.getElem_mem hl)
  rw [hjj] at hmm
  have : (Function.uncurry fun i s => (i, scoreSent freq s)) (j, sent[j]) =
      (j, scoreSent freq (sent.getD j [])) := by
    show (j, scoreSent freq sent[j]) = (j, scoreSent freq (sent.getD j []))
    rw [List.getD_eq_getElem sent [] hj]
  rw [this] at hmm
  exact hmm

/-- CLAIM C9. For every text with more than 3 sentences the summarizer selects
exactly `min(6, ceil(n * 0.25))` sentences, the selected indices are strictly
increasing (original order), every selected sentence scores at least as high
as every unselected one, and the returned sentence sequence is a sublist of
the original sentence sequence. -/
theorem summary_selection_and_order (text : Str)
    (h : 3 < (sentencesOf text).length) :
    ∃ pick : List ℕ,
      generateExtractiveSummary text =
        List.intercalate " ".data (pick.map (fun i => (sentencesOf text).getD i [])) ∧
      pick.length = min 6 (((sentencesOf text).length + 3) / 4) ∧
      pick.Pairwise (· < ·) ∧
      (∀ i ∈ pick, i < (sentencesOf text).length) ∧
      (∀ i ∈ pick, ∀ j, j < (sentencesOf text).length → j ∉ pick →
        scoreSent (tfMapOf (tokenize text)) ((sentencesOf text).getD j []) ≤
          scoreSent (tfMapOf (tokenize text)) ((sentencesOf text).getD i [])) ∧
      (pick.map (fun i => (sentencesOf text).getD i [])).Sublist (sentencesOf text) := by
  have hnle : ¬ (sentencesOf text).length ≤ 3 := by omega
  set sent := sentencesOf text with hsent
  set freq := tfMapOf (tokenize text) with hfreq
  set dle := (fun a b : ℕ × ℚ => decide (b.2 ≤ a.2)) with hdle
  set ale := (fun a b : ℕ => decide (a ≤ b)) with hale
  set scores := sent.mapIdx (fun i s => (i, scoreSent freq s)) with hscores
  set sorted := scores.mergeSort dle with hsorted
  set k := min 6 ((sent.length + 3) / 4) with hkdef
  set pickU := (sorted.take k).map Prod.fst with hpickU
  set pick := pickU.mergeSort ale with hpickdef
  have hperm1 : sorted.Perm scores := List.mergeSort_perm scores dle
  have hpermP : pick.Perm pickU := List.mergeSort_perm pickU ale
  have hslen : sorted.length = sent.length := by
    rw [hsorted, List.length_mergeSort, hscores, List.length_mapIdx]
  have hkn : k ≤ sorted.length := by
    rw [hslen, hkdef]; omega
  have hlenpick : pick.length = k := by
    rw [hpickdef, List.length_mergeSort, hpickU, List.length_map, List.length_take]
    omega
  have hfstnd : (sorted.map Prod.fst).Nodup := by
    have hnd : (scores.map Prod.fst).Nodup := by
      rw [hscores, scores_map_fst]; exact List.nodup_range _
    exact ((hperm1.map Prod.fst).symm).nodup hnd
  have hUnd : pickU.Nodup := by
    rw [hpickU, List.map_take]
    exact List.Nodup.sublist (List.take_sublist k _) hfstnd
  have hpnd : pick.Nodup := (hpermP.symm).nodup hUnd
  have htransA : ∀ a b c : ℕ, ale a b = true → ale b c = true → ale a c = true := by
    intro a b c hab hbc
    rw [hale] at *
    simp only [decide_eq_true_eq] at *
    omega
  have htotA : ∀ a b : ℕ, (ale a b || ale b a) = true := by
    intro a b
    rw [hale]
    simp only [Bool.or_eq_true, decide_eq_true_eq]
    omega
  have hsortedpick : pick.Pairwise (fun a b => ale a b = true) :=
    List.sorted_mergeSort htransA htotA pickU
  have hlt : pick.Pairwise (· < ·) := by
    refine (List.Pairwise.and hsortedpick hpnd).imp ?_
    intro a b hab
    have h1 : a ≤ b := by
      have := hab.1
      rw [hale] at this
      simpa using this
    exact lt_of_le_of_ne h1 hab.2
  have hbounds : ∀ i ∈ pick, i < sent.length := by
    intro i hi
    have hiU : i ∈ pickU := (hpermP.mem_iff).mp hi
    rcases List.mem_map.mp hiU with ⟨q, hq, hq'⟩
    have hqs : q ∈ sorted := (List.take_sublist k sorted).subset hq
    have hqsc : q ∈ scores := (hperm1.mem_iff).mp hqs
    have := (scores_mem_val sent freq q hqsc).1
    rw [← hq']
    exact this
  have htransD : ∀ a b c : ℕ × ℚ, dle a b = true → dle b c = true → dle a c = true := by
    intro a b c hab hbc
    rw [hdle] at *
    simp only [decide_eq_true_eq] at *
    exact le_trans hbc hab
  have htotD : ∀ a b : ℕ × ℚ, (dle a b || dle b a) = true := by
    intro a b
    rw [hdle]
    simp only [Bool.or_eq_true, decide_eq_true_eq]
    exact le_total b.2 a.2
  have hsorteddesc : sorted.Pairwise (fun a b => dle a b = true) :=
    List.sorted_mergeSort htransD htotD scores
  have hdom : ∀ i ∈ pick, ∀ j, j < sent.length → j ∉ pick →
      scoreSent freq (sent.getD j []) ≤ scoreSent freq (sent.getD i []) := by
    intro i hi j hjn hjp
    have hiU : i ∈ pickU := (hpermP.mem_iff).mp hi
    rcases List.mem_map.mp hiU with ⟨qi, hqi_take, hqi_fst⟩
    have hqi_scores : qi ∈ scores :=
      (hperm1.mem_iff).mp ((List.take_sublist k sorted).subset hqi_take)
    have hqi_val := (scores_mem_val sent freq qi hqi_scores).2
    have hpj_scores : (j, scoreSent freq (sent.getD j [])) ∈ scores := by
      rw [hscores]
      exact scores_getElem sent freq j hjn
    have hpj_sorted : (j, scoreSent freq (sent.getD j [])) ∈ sorted :=
      (hperm1.mem_iff).mpr hpj_scores
    have hsplit : (j, scoreSent freq (sent.getD j [])) ∈
        sorted.take k ++ sorted.drop k := by
      rw [List.take_append_drop]
      exact hpj_sorted
    rcases List.mem_append.mp hsplit with hin | hin
    · exfalso
      have hjU : j ∈ pickU := by
        rw [hpickU]
        exact List.mem_map_of_mem Prod.fst hin
      exact hjp ((hpermP.mem_iff).mpr hjU)
    · have hrel := List.Sorted.rel_of_mem_take_of_mem_drop hsorteddesc hqi_take hin
      rw [hdle] at hrel
      simp only [decide_eq_true_eq] at hrel
      calc scoreSent freq (sent.getD j []) ≤ qi.2 := hrel
        _ = scoreSent freq (sent.getD qi.1 []) := hqi_val
        _ = scoreSent freq (sent.getD i []) := by rw [hqi_fst]
  refine ⟨pick, ?_, ?_, hlt, hbounds, hdom, ?_⟩
  · show generateExtractiveSummary text =
      List.intercalate " ".data (pick.map (fun i => sent.getD i []))
    unfold generateExtractiveSummary
    rw [if_neg hnle]
  · rw [hlenpick, hkdef]
  · exact map_getD_sublist sent [] pick hlt hbounds

end Chatbot

namespace Chatbot

/-- Closed witness for `summary_selection_and_order` on a five-sentence text. -/
theorem summary_selection_and_order_witness :
    3 < (sentencesOf "One two. Three four. Five six. Seven eight. Nine ten.".data).length ∧
    (∃ pick : List ℕ,
      generateExtractiveSummary "One two. Three four. Five six. Seven eight. Nine ten.".data =
        List.intercalate " ".data (pick.map (fun i =>
          (sentencesOf "One two. Three four. Five six. Seven eight. Nine ten.".data).getD i [])) ∧
      pick.length = min 6
        (((sentencesOf "One two. Three four. Five six. Seven eight. Nine ten.".data).length + 3) / 4) ∧
      pick.Pairwise (· < ·) ∧
      (∀ i ∈ pick,
        i < (sentencesOf "One two. Three four. Five six. Seven eight. Nine ten.".data).length) ∧
      (∀ i ∈ pick, ∀ j,
        j < (sentencesOf "One two. Three four. Five six. Seven eight. Nine ten.".data).length →
        j ∉ pick →
        scoreSent (tfMapOf (tokenize "One two. Three four. Five six. Seven eight. Nine ten.".data))
            ((sentencesOf "One two. Three four. Five six. Seven eight. Nine ten.".data).getD j []) ≤
          scoreSent (tfMapOf (tokenize "One two. Three four. Five six. Seven eight. Nine ten.".data))
            ((sentencesOf "One two. Three four. Five six. Seven eight. Nine ten.".data).getD i [])) ∧
      (pick.map (fun i =>
        (sentencesOf "One two. Three four. Five six. Seven eight. Nine ten.".data).getD i [])).Sublist
          (sentencesOf "One two. Three four. Five six. Seven eight. Nine ten.".data)) :=
  ⟨by decide,
    summary_selection_and_order "One two. Three four. Five six. Seven eight. Nine ten.".data (by decide)⟩

end Chatbot

namespace Chatbot

/-- The `Section` record of the sectioner module.  The `id` field is a
`crypto.randomUUID()` in the source; it is modelled as a deterministic fresh
string since no claim depends on the random value. -/
structure Section where
  id : Str
  sourceId : Str
  title : Str
  startPage : Option ℕ
  endPage : Option ℕ
  text : Str
  tokensEstimated : ℕ
deriving DecidableEq

/-- Fuelled digit expansion of a natural number (most significant first);
the fuel dominates the value, so the recursion is structural and reduces in
the kernel. -/
def natStrGo : ℕ → ℕ → Str
  | 0, _ => []
  | _ + 1, 0 => []
  | fuel + 1, n + 1 =>
    natStrGo fuel ((n + 1) / 10) ++ [Char.ofNat (48 + (n + 1) % 10)]

/-- Decimal representation of a natural number, as characters. -/
def natStr (n : ℕ) : Str := if n = 0 then ['0'] else natStrGo n n

/-- JavaScript truthiness of an optional page number (`undefined` and `0` are
falsy). -/
def optTruthy (o : Option ℕ) : Bool :=
  match o with
  | some p => decide (p ≠ 0)
  | none => false

/-- The page phrase of `getSourceInfo`:
`pages a-b` when both pages are truthy, `page a` when only the start page is,
`source document` otherwise. -/
def pageInfoStr (sec : Section) : Str :=
  if optTruthy sec.startPage && optTruthy sec.endPage then
    "pages ".data ++ natStr (sec.startPage.getD 0) ++ "-".data ++ natStr (sec.endPage.getD 0)
  else if optTruthy sec.startPage then
    "page ".data ++ natStr (sec.startPage.getD 0)
  else "source document".data

/-- `getSourceInfo` from the composer module:
`sections.find(s => s.id === activeId) || sections[0]`, then the citation
phrase, or a fixed message when no section exists. -/
def getSourceInfo (sections : List Section) (activeId : Option Str) : Str :=
  match (sections.find? (fun s => some s.id == activeId)).orElse (fun _ => sections.head?) with
  | none => "Source information not available".data
  | some sec => "Based on \"".data ++ sec.title ++ "\" from ".data ++ pageInfoStr sec

/-- CLAIM C10. When the sections list is non-empty but no section id equals
the active id, `getSourceInfo` cites the first section of the list (title and
page range); only an empty list yields the unavailable message. -/
theorem citation_falls_back_to_first (sections : List Section) (activeId : Option Str)
    (hne : sections ≠ []) (hnm : ∀ s ∈ sections, some s.id ≠ activeId) :
    getSourceInfo sections activeId =
      "Based on \"".data ++ (sections.head hne).title ++ "\" from ".data ++
        pageInfoStr (sections.head hne) ∧
    getSourceInfo [] activeId = "Source information not available".data := by
  constructor
  · have hfind : sections.find? (fun s => some s.id == activeId) = none := by
      rw [List.find?_eq_none]
      intro x hx
      simp only [beq_iff_eq]
      exact hnm x hx
    unfold getSourceInfo
    rw [hfind, List.head?_eq_head hne]
    rfl
  · rfl

/-- Closed witness for `citation_falls_back_to_first` on a one-section list
whose id differs from the active id. -/
theorem citation_falls_back_to_first_witness :
    getSourceInfo
        [{ id := "s1".data, sourceId := "doc".data, title := "Intro".data,
           startPage := some 1, endPage := some 4, text := "body".data,
           tokensEstimated := 1 }] (some "zzz".data) =
      "Based on \"".data ++ "Intro".data ++ "\" from ".data ++
        pageInfoStr
          { id := "s1".data, sourceId := "doc".data, title := "Intro".data,
            startPage := some 1, endPage := some 4, text := "body".data,
            tokensEstimated := 1 } :=
  (citation_falls_back_to_first
    [{ id := "s1".data, sourceId := "doc".data, title := "Intro".data,
       startPage := some 1, endPage := some 4, text := "body".data,
       tokensEstimated := 1 }] (some "zzz".data) (by decide) (by decide)).1

end Chatbot

namespace Chatbot

/-- Replace the placeholder tilde by an ASCII apostrophe (code point 39); the
source message strings contain apostrophes. -/
def fixAp (s : String) : Str := s.data.map (fun c => if c = '~' then Char.ofNat 39 else c)

/-- JavaScript word-class `\w`: letters, digits and underscore. -/
def isWordCh (c : Char) : Bool :=
  isUpperCh c || decide (97 ≤ c.toNat ∧ c.toNat ≤ 122) || isDigitCh c || c == '_'

/-- Numeric value of a digit run. -/
def digitsVal (ds : Str) : ℕ := ds.foldl (fun a c => 10 * a + (c.toNat - 48)) 0

/-- Greedy parse of a non-empty digit run. -/
def parseDigitsNat (s : Str) : Option (ℕ × Str) :=
  let ds := s.takeWhile isDigitCh
  if ds = [] then none else some (digitsVal ds, s.drop ds.length)

/-- Parse of the page-marker pattern `\[\[PAGE:(\d+)\]\]` anchored at the head
of the string; returns the page number and the remainder after the match. -/
def markerParse (s : Str) : Option (ℕ × Str) :=
  if "[[PAGE:".data.isPrefixOf s then
    match parseDigitsNat (s.drop 7) with
    | none => none
    | some (n, r2) => if "]]".data.isPrefixOf r2 then some (n, r2.drop 2) else none
  else none

/-- Fuelled scanner for `replace(/\[\[PAGE:\d+\]\]/g, '')` (the fuel is the
string length, always sufficient because every step consumes input). -/
def repMarkF : ℕ → Str → Str
  | 0, s => s
  | _ + 1, [] => []
  | fuel + 1, c :: t =>
    match markerParse (c :: t) with
    | some (_, rest) => repMarkF fuel rest
    | none => c :: repMarkF fuel t

/-- `replace(/\[\[PAGE:\d+\]\]/g, '')`. -/
def repMark (s : Str) : Str := repMarkF s.length s

/-- Emitted text for a pending whitespace run under `replace(/\s+/g, ' ')`. -/
def flushWsAll (run : Str) : Str := if run = [] then [] else [' ']

/-- Scanner for `replace(/\s+/g, ' ')`; the first argument is the reversed
pending whitespace run. -/
def repWsAllGo : Str → Str → Str
  | run, [] => flushWsAll run
  | run, c :: t =>
    if isWs c then repWsAllGo (c :: run) t
    else flushWsAll run ++ c :: repWsAllGo [] t

/-- `replace(/\s+/g, ' ')`. -/
def repWsAll (s : Str) : Str := repWsAllGo [] s

/-- Emitted text for a pending whitespace run under `replace(/\s{2,}/g, ' ')`:
runs of length at least two collapse to one space, a single whitespace
character stays. -/
def flushRep3 (run : Str) : Str := if 2 ≤ run.length then [' '] else run.reverse

/-- Scanner for `replace(/\s{2,}/g, ' ')`. -/
def rep3Go : Str → Str → Str
  | run, [] => flushRep3 run
  | run, c :: t =>
    if isWs c then rep3Go (c :: run) t
    else flushRep3 run ++ c :: rep3Go [] t

/-- `replace(/\s{2,}/g, ' ')`. -/
def rep3 (s : Str) : Str := rep3Go [] s

/-- The punctuation class `[,.!?;:]`. -/
def isPunct2 (c : Char) : Bool :=
  c == ',' || c == '.' || c == '!' || c == '?' || c == ';' || c == ':'

/-- Scanner for `replace(/\s+([,.!?;:])/g, '$1')`: a whitespace run followed
by a punctuation mark is dropped, other whitespace is kept. -/
def rep2Go : Str → Str → Str
  | run, [] => run.reverse
  | run, c :: t =>
    if isWs c then rep2Go (c :: run) t
    else if decide (run ≠ []) && isPunct2 c then c :: rep2Go [] t
    else run.reverse ++ c :: rep2Go [] t

/-- `replace(/\s+([,.!?;:])/g, '$1')`. -/
def rep2 (s : Str) : Str := rep2Go [] s

/-- Scanner for `replace(/(\w+)\s*-\s*(\w+)/g, '$1$2')` of the composer
cleaner, as a five-mode machine: 0 outside a word, 1 inside a word, 2 after a
word collecting whitespace before a hyphen, 3 after the hyphen collecting
whitespace, 4 consuming the second word of a successful match (which the
global regex does not rescan). -/
def rep6Go : ℕ → Str → Str → Str
  | 0, _, [] => []
  | 1, _, [] => []
  | 2, buf, [] => buf.reverse
  | 3, buf, [] => buf.reverse
  | _, _, [] => []
  | 0, _, c :: t =>
    if isWordCh c then c :: rep6Go 1 [] t else c :: rep6Go 0 [] t
  | 1, _, c :: t =>
    if isWordCh c then c :: rep6Go 1 [] t
    else if isWs c then rep6Go 2 [c] t
    else if c = '-' then rep6Go 3 [c] t
    else c :: rep6Go 0 [] t
  | 2, buf, c :: t =>
    if isWs c then rep6Go 2 (c :: buf) t
    else if c = '-' then rep6Go 3 (c :: buf) t
    else if isWordCh c then buf.reverse ++ c :: rep6Go 1 [] t
    else buf.reverse ++ c :: rep6Go 0 [] t
  | 3, buf, c :: t =>
    if isWs c then rep6Go 3 (c :: buf) t
    else if isWordCh c then c :: rep6Go 4 [] t
    else buf.reverse ++ c :: rep6Go 0 [] t
  | 4, _, c :: t =>
    if isWordCh c then c :: rep6Go 4 [] t
    else c :: rep6Go 0 [] t
  | _ + 5, _, _ :: _ => []

/-- `replace(/(\w+)\s*-\s*(\w+)/g, '$1$2')`. -/
def rep6 (s : Str) : Str := rep6Go 0 [] s

/-- `cleanContent` from the composer: strip page markers, collapse whitespace,
fix punctuation spacing, merge hyphenated splits, collapse again, trim. -/
def cleanContent (content : Str) : Str :=
  trimStr (rep3 (rep6 (rep2 (repWsAll (repMark content)))))

/-- Substring test `s.includes(sub)` (scan of all suffixes). -/
def containsSubGo : Str → Str → Bool
  | sub, [] => sub.isEmpty
  | sub, c :: t => sub.isPrefixOf (c :: t) || containsSubGo sub t

/-- JavaScript `s.includes(sub)`. -/
def strIncludes (s sub : Str) : Bool := containsSubGo sub s

/-- The explanation keyword list of `isEducationalExplanationRequest`. -/
def explanationKeywords : List Str :=
  ["explain".data, "simpler".data, "simple".data, "basic".data, "beginner".data,
   "easy".data, "understand".data, "clarify".data, "elaborate".data,
   "break down".data, "in detail".data, "what does".data, "how does".data,
   "why does".data, "what is".data, "define".data, "meaning".data,
   "concept".data, "examples".data, "illustrate".data]

/-- `isEducationalExplanationRequest` from the composer. -/
def isEducationalExplanationRequest (question : Str) : Bool :=
  explanationKeywords.any (fun kw => strIncludes (question.map Char.toLower) kw)

/-- The stop-word set of `extractKeyTerms`. -/
def eduStopWords : List Str :=
  ["what".data, "how".data, "why".data, "when".data, "where".data, "who".data,
   "which".data, "that".data, "this".data, "is".data, "are".data, "was".data,
   "were".data, "be".data, "been".data, "being".data, "have".data, "has".data,
   "had".data, "do".data, "does".data, "did".data, "will".data, "would".data,
   "could".data, "should".data, "may".data, "might".data, "can".data,
   "the".data, "a".data, "an".data, "and".data, "or".data, "but".data,
   "in".data, "on".data, "at".data, "to".data, "for".data, "of".data,
   "with".data, "by".data, "about".data, "into".data, "through".data,
   "during".data, "before".data, "after".data, "above".data, "below".data,
   "up".data, "down".data, "out".data, "off".data, "over".data, "under".data,
   "again".data, "further".data, "then".data, "once".data, "explain".data,
   "simpler".data, "simple".data]

/-- One character of `replace(/[^\w\s]/g, ' ')`. -/
def wordChSub (c : Char) : Char := if isWordCh c || isWs c then c else ' '

/-- `extractKeyTerms` from the composer: lowercase, strip non-word characters,
split, drop short words and stop words, keep the first five. -/
def extractKeyTerms (question : Str) : List Str :=
  ((wordsByGo isWs [] ((question.map Char.toLower).map wordChSub)).filter
    (fun w => decide (2 < w.length) && !(decide (w ∈ eduStopWords)))).take 5

end Chatbot

namespace Chatbot

/-- Scanner for `split(/\n{2,}/)`: mode 0 scans a chunk, mode 1 holds one
pending newline, mode 2 consumes the rest of a separator run of newlines. -/
def sbGo : ℕ → Str → Str → List Str
  | 0, acc, [] => [acc.reverse]
  | 1, acc, [] => [('\n' :: acc).reverse]
  | 2, _, [] => [[]]
  | 0, acc, c :: t =>
    if c = '\n' then sbGo 1 acc t else sbGo 0 (c :: acc) t
  | 1, acc, c :: t =>
    if c = '\n' then acc.reverse :: sbGo 2 [] t else sbGo 0 (c :: '\n' :: acc) t
  | 2, _, c :: t =>
    if c = '\n' then sbGo 2 [] t else sbGo 0 [c] t
  | _ + 3, _, _ => []

/-- `split(/\n{2,}/)`. -/
def splitBlanks (s : Str) : List Str := sbGo 0 [] s

/-- Scanner for `split(/[.!?]+/)`: a run of sentence punctuation separates
pieces; the flag marks being inside such a run. -/
def spGo : Bool → Str → Str → List Str
  | false, acc, [] => [acc.reverse]
  | true, _, [] => [[]]
  | false, acc, c :: t =>
    if isSentEnd c then acc.reverse :: spGo true [] t else spGo false (c :: acc) t
  | true, _, c :: t =>
    if isSentEnd c then spGo true [] t else spGo false [c] t

/-- `split(/[.!?]+/)`. -/
def splitPunctRuns (s : Str) : List Str := spGo false [] s

/-- The message returned by `demoAnswer` on an empty context. -/
def noContentMsg : Str :=
  "No content available. Please upload a PDF or select a chapter.".data

/-- The message returned by `generateRuleBasedAnswer` when no paragraph
survives the 50-character filter. -/
def insufficientMsg : Str :=
  fixAp "I don~t have enough content to answer your question. Please make sure you~ve selected a chapter with substantial content."

/-- The message returned by `generateNaturalAnswer` when no usable sentence
remains. -/
def difficultyMsg : Str :=
  fixAp "I found some related content, but it~s difficult to extract a clear answer to your specific question."

/-- The `${source ? ... : ...}` interpolation shared by the guidance
templates. -/
def sourceClause (source : Str) : Str :=
  if source ≠ [] then "Currently working with: *".data ++ source ++ "*".data
  else "Please upload a PDF or select a chapter to get started.".data

/-- The simpler-terms guidance template of `handleEducationalExplanation`. -/
def eduTemplateA (source : Str) : Str :=
  fixAp "I~d be happy to explain this in simpler terms! However, I need more specific content to work with. \n\nHere are some suggestions:\n• Try asking about a specific concept or term from the document\n• Select a particular chapter that contains the topic you~re interested in\n• Upload a document that covers the subject you want explained\n\n" ++
  sourceClause source ++
  "\n\nWhat specific topic would you like me to explain?".data

/-- The definition guidance template of `handleEducationalExplanation`. -/
def eduTemplateB (source : Str) : Str :=
  fixAp "I can help define concepts for you! To provide an accurate definition, I need to reference the relevant content from your documents.\n\nPlease try:\n• Asking about terms that appear in the selected chapter\n• Uploading a document that contains the concept you want defined\n• Being more specific about which subject area you~re exploring\n\n" ++
  sourceClause source ++
  "\n\nWhat term or concept would you like me to define?".data

/-- The generic educational guidance template of
`handleEducationalExplanation`. -/
def eduTemplateC (source : Str) : Str :=
  fixAp "I understand you~re looking for an educational explanation. I~m designed to help explain concepts from your uploaded documents in a clear, accessible way.\n\nTo provide the best explanation:\n• Make sure you have content selected from a chapter or document\n• Ask about specific topics that appear in your materials\n• I can break down complex concepts into simpler terms\n\n" ++
  sourceClause source ++
  "\n\nWhat would you like me to help explain?".data

/-- The non-educational suggestion template of `generateEnhancedFallback`. -/
def fallbackTemplate (source : Str) : Str :=
  fixAp "I couldn~t find specific information directly addressing your question in the current content. \n\nHere are some suggestions:\n• Try rephrasing your question with different keywords\n• Check if you~ve selected the most relevant chapter or section\n• Ask about topics that are explicitly mentioned in the document\n\n" ++
  sourceClause source ++
  "\n\nWhat specific aspect would you like to explore?".data

/-- `findRelevantContentByTerms` from the composer: paragraphs longer than 30
characters mentioning at least one key term, at most three. -/
def findRelevantContentByTerms (context : Str) (keyTerms : List Str) : List Str :=
  if keyTerms = [] then []
  else
    (((splitBlanks context).map trimStr).filter (fun p => decide (30 < p.length))).filter
      (fun p => 0 < keyTerms.countP (fun term => strIncludes (p.map Char.toLower) term))
      |>.take 3

/-- `generateEducationalResponse` from the composer. -/
def generateEducationalResponse (question : Str) (content : List Str)
    (keyTerms : List Str) : Str :=
  let lq := question.map Char.toLower
  let intro :=
    if strIncludes lq "simpler".data || strIncludes lq "simple".data then
      "Let me break this down in simpler terms:\n\n".data
    else if strIncludes lq "what is".data || strIncludes lq "define".data then
      fixAp "Here~s what I found about this concept:\n\n"
    else fixAp "Based on the content, here~s an explanation:\n\n"
  let summary := (List.intercalate [' '] content).take 400
  let sentences := (splitPunctRuns summary).filter (fun s => decide (10 < (trimStr s).length))
  let body := List.intercalate ". ".data ((sentences.take 3).map trimStr)
  let withEllipsis :=
    intro ++ body ++ (if 3 < sentences.length then "...".data else []) ++ "\n\n".data
  let withTerms :=
    withEllipsis ++
      (if keyTerms ≠ [] then
        "Key concepts mentioned: ".data ++ List.intercalate ", ".data keyTerms ++ "\n\n".data
      else [])
  withTerms ++ "Would you like me to elaborate on any specific aspect?".data

/-- `handleEducationalExplanation` from the composer. -/
def handleEducationalExplanation (question context : Str) (sections : List Section)
    (activeId : Option Str) : Str :=
  if findRelevantContentByTerms context (extractKeyTerms question) ≠ [] then
    generateEducationalResponse question
      (findRelevantContentByTerms context (extractKeyTerms question))
      (extractKeyTerms question)
  else if strIncludes (question.map Char.toLower) "simpler".data ||
      strIncludes (question.map Char.toLower) "simple".data then
    eduTemplateA (getSourceInfo sections activeId)
  else if strIncludes (question.map Char.toLower) "what is".data ||
      strIncludes (question.map Char.toLower) "define".data then
    eduTemplateB (getSourceInfo sections activeId)
  else eduTemplateC (getSourceInfo sections activeId)

/-- `generateEnhancedFallback` from the composer. -/
def generateEnhancedFallback (question context : Str) (sections : List Section)
    (activeId : Option Str) : Str :=
  let source := getSourceInfo sections activeId
  if isEducationalExplanationRequest question then
    handleEducationalExplanation question context sections activeId
  else fallbackTemplate source

/-- `generateIntroPhrase` from the composer. -/
def generateIntroPhrase (question : Str) : Str :=
  let q := question.map Char.toLower
  if strIncludes q "what".data || strIncludes q "explain".data then []
  else if strIncludes q "how".data then "According to the content, ".data
  else if strIncludes q "why".data then "The document suggests that ".data
  else if strIncludes q "when".data || strIncludes q "where".data then
    "Based on the information, ".data
  else if strIncludes q "who".data then "The text indicates that ".data
  else []

/-- `generateNaturalAnswer` from the composer. -/
def generateNaturalAnswer (question : Str) (paragraphs : List Str) : Str :=
  let combinedText := (List.intercalate [' '] paragraphs).take 1000
  let sentences :=
    ((splitSentencesRaw combinedText).filter (fun s => decide (20 < s.length))).take 6
  if sentences = [] then difficultyMsg
  else
    let answer := trimStr (repWsAll (List.intercalate [' '] sentences))
    generateIntroPhrase question ++ answer

/-- The paragraph list of the retrieval path of `generateRuleBasedAnswer`:
`cleanContext.split(/\n{2,}/).map(p => p.trim()).filter(p => p.length > 50)`. -/
def composerParas (cleanContext : Str) : List Str :=
  ((splitBlanks cleanContext).map trimStr).filter (fun p => decide (50 < p.length))

/-- The scored-and-sorted candidate list of `generateRuleBasedAnswer`:
every paragraph vector is scored by cosine against the query vector and the
pairs are sorted by descending score. -/
noncomputable def rankedScores (question : Str) (paras : List Str) : List (ℕ × ℝ) :=
  ((tfidfParagraphs paras).1.mapIdx (fun i v =>
    (i, cosine (vectorizeQuery question (tfidfParagraphs paras).2 paras.length) v))).mergeSort
    (fun a b => decide (b.2 ≤ a.2))

/-- The surviving paragraphs of `generateRuleBasedAnswer`: the top 3 scored
candidates above the 0.1 relevance floor, mapped back to paragraph text. -/
noncomputable def relevantParagraphs (question : Str) (paras : List Str) : List Str :=
  (((rankedScores question paras).take 3).filter
    (fun s => decide ((1 : ℝ) / 10 < s.2))).map (fun s => paras.getD s.1 [])

/-- `generateRuleBasedAnswer` from the composer (the deterministic path). -/
noncomputable def generateRuleBasedAnswer (question cleanContext : Str)
    (sections : List Section) (activeId : Option Str) : Str :=
  if isEducationalExplanationRequest question then
    handleEducationalExplanation question cleanContext sections activeId
  else if composerParas cleanContext = [] then insufficientMsg
  else if relevantParagraphs question (composerParas cleanContext) = [] then
    generateEnhancedFallback question cleanContext sections activeId
  else
    generateNaturalAnswer question (relevantParagraphs question (composerParas cleanContext)) ++
      "\n\n*".data ++ getSourceInfo sections activeId ++ "*".data

/-- `demoAnswer` from the composer when no AI service is configured: the
deterministic fallback path. -/
noncomputable def demoAnswerNoAI (question context : Str) (sections : List Section)
    (activeId : Option Str) : Str :=
  if context = [] ∨ (trimStr context).length = 0 then noContentMsg
  else generateRuleBasedAnswer question (cleanContent context) sections activeId

end Chatbot

namespace Chatbot

theorem ne_nil_of_append_left {a b : Str} (h : a ≠ []) : a ++ b ≠ [] := by
  intro hc
  rcases List.append_eq_nil.mp hc with ⟨h1, _⟩
  exact h h1

theorem ne_nil_of_append_right {a b : Str} (h : b ≠ []) : a ++ b ≠ [] := by
  intro hc
  rcases List.append_eq_nil.mp hc with ⟨_, h2⟩
  exact h h2

theorem eduTemplateA_ne (source : Str) : eduTemplateA source ≠ [] := by
  unfold eduTemplateA
  exact ne_nil_of_append_right (by decide)

theorem eduTemplateB_ne (source : Str) : eduTemplateB source ≠ [] := by
  unfold eduTemplateB
  exact ne_nil_of_append_right (by decide)

theorem eduTemplateC_ne (source : Str) : eduTemplateC source ≠ [] := by
  unfold eduTemplateC
  exact ne_nil_of_append_right (by decide)

theorem fallbackTemplate_ne (source : Str) : fallbackTemplate source ≠ [] := by
  unfold fallbackTemplate
  exact ne_nil_of_append_right (by decide)

theorem generateEducationalResponse_ne (question : Str) (content : List Str)
    (keyTerms : List Str) : generateEducationalResponse question content keyTerms ≠ [] := by
  unfold generateEducationalResponse
  exact ne_nil_of_append_right (by decide)

theorem handleEducationalExplanation_ne (question context : Str)
    (sections : List Section) (activeId : Option Str) :
    handleEducationalExplanation question context sections activeId ≠ [] := by
  unfold handleEducationalExplanation
  split_ifs
  · exact generateEducationalResponse_ne _ _ _
  · exact eduTemplateA_ne _
  · exact eduTemplateB_ne _
  · exact eduTemplateC_ne _

theorem generateEnhancedFallback_ne (question context : Str)
    (sections : List Section) (activeId : Option Str) :
    generateEnhancedFallback question context sections activeId ≠ [] := by
  unfold generateEnhancedFallback
  split_ifs
  · exact handleEducationalExplanation_ne _ _ _ _
  · exact fallbackTemplate_ne _

end Chatbot

namespace Chatbot

/-- CLAIM C4. On the deterministic retrieval path the composer scores every
paragraph of the active context against the query vector with cosine, sorts
descending, keeps the top 3, discards candidates at or below the 0.1 floor,
and invokes the keyword/topic fallback when no candidate survives. -/
theorem composer_ranking_policy :
    (∀ (question : Str) (paras : List Str),
      (rankedScores question paras).Perm
        ((tfidfParagraphs paras).1.mapIdx (fun i v =>
          (i, cosine (vectorizeQuery question (tfidfParagraphs paras).2 paras.length) v))) ∧
      (rankedScores question paras).Pairwise (fun a b => b.2 ≤ a.2) ∧
      (rankedScores question paras).length = paras.length ∧
      relevantParagraphs question paras =
        (((rankedScores question paras).take 3).filter
          (fun s => decide ((1 : ℝ) / 10 < s.2))).map (fun s => paras.getD s.1 []) ∧
      (relevantParagraphs question paras).length ≤ 3 ∧
      (∀ s ∈ ((rankedScores question paras).take 3).filter
          (fun s => decide ((1 : ℝ) / 10 < s.2)), (1 : ℝ) / 10 < s.2)) ∧
    (∀ (question cleanContext : Str) (sections : List Section) (activeId : Option Str),
      isEducationalExplanationRequest question = false →
      composerParas cleanContext ≠ [] →
      ((relevantParagraphs question (composerParas cleanContext) = [] →
        generateRuleBasedAnswer question cleanContext sections activeId =
          generateEnhancedFallback question cleanContext sections activeId) ∧
       (relevantParagraphs question (composerParas cleanContext) ≠ [] →
        generateRuleBasedAnswer question cleanContext sections activeId =
          generateNaturalAnswer question
              (relevantParagraphs question (composerParas cleanContext)) ++
            "\n\n*".data ++ getSourceInfo sections activeId ++ "*".data))) := by
  constructor
  · intro question paras
    refine ⟨List.mergeSort_perm _ _, ?_, ?_, rfl, ?_, ?_⟩
    · have htrans : ∀ a b c : ℕ × ℝ,
          (fun a b : ℕ × ℝ => decide (b.2 ≤ a.2)) a b = true →
          (fun a b : ℕ × ℝ => decide (b.2 ≤ a.2)) b c = true →
          (fun a b : ℕ × ℝ => decide (b.2 ≤ a.2)) a c = true := by
        intro a b c hab hbc
        simp only [decide_eq_true_eq] at *
        exact le_trans hbc hab
      have htot : ∀ a b : ℕ × ℝ,
          ((fun a b : ℕ × ℝ => decide (b.2 ≤ a.2)) a b ||
           (fun a b : ℕ × ℝ => decide (b.2 ≤ a.2)) b a) = true := by
        intro a b
        simp only [Bool.or_eq_true, decide_eq_true_eq]
        exact le_total b.2 a.2
      have hs := List.sorted_mergeSort htrans htot
        ((tfidfParagraphs paras).1.mapIdx (fun i v =>
          (i, cosine (vectorizeQuery question (tfidfParagraphs paras).2 paras.length) v)))
      refine hs.imp ?_
      intro a b hab
      simpa using hab
    · rw [rankedScores, List.length_mergeSort, List.length_mapIdx, tfidf_first_length]
    · calc (relevantParagraphs question paras).length
          = (((rankedScores question paras).take 3).filter
              (fun s => decide ((1 : ℝ) / 10 < s.2))).length := by
            rw [relevantParagraphs, List.length_map]
        _ ≤ ((rankedScores question paras).take 3).length := List.length_filter_le _ _
        _ ≤ 3 := by rw [List.length_take]; omega
    · intro s hs
      have := List.of_mem_filter hs
      simpa using this
  · intro question cleanContext sections activeId hq hp
    constructor
    · intro hrel
      rw [generateRuleBasedAnswer, if_neg (by rw [hq]; exact Bool.false_ne_true),
        if_neg hp, if_pos hrel]
    · intro hrel
      rw [generateRuleBasedAnswer, if_neg (by rw [hq]; exact Bool.false_ne_true),
        if_neg hp, if_neg hrel]

end Chatbot

namespace Chatbot

theorem cosine_zero_of_no_overlap (a b : List (Str × ℝ))
    (h : ∀ p ∈ a, mapGet b p.1 = none) : cosine a b = 0 := by
  have hd : dotProd a b = 0 := by
    rw [dotProd_eq_sum]
    apply List.sum_eq_zero
    intro x hx
    rcases List.mem_map.mp hx with ⟨p, hp, hpe⟩
    rw [← hpe, h p hp]
    simp
  rw [cosine, hd]
  exact zero_div _

theorem rankedScores_singleton (q p : Str) :
    rankedScores q [p] =
      [(0, cosine (vectorizeQuery q (tfidfParagraphs [p]).2 1)
        (vecOfDoc 1 (dfMapOf [tokenize p]) (tokenize p)))] := by
  have hml : ((tfidfParagraphs [p]).1.mapIdx (fun i v =>
      (i, cosine (vectorizeQuery q (tfidfParagraphs [p]).2 [p].length) v))) =
      [(0, cosine (vectorizeQuery q (tfidfParagraphs [p]).2 1)
        (vecOfDoc 1 (dfMapOf [tokenize p]) (tokenize p)))] := rfl
  rw [rankedScores, hml]
  exact List.perm_singleton.mp (List.mergeSort_perm _ _)

theorem relevantParagraphs_singleton_zero (q p : Str)
    (hz : cosine (vectorizeQuery q (tfidfParagraphs [p]).2 1)
      (vecOfDoc 1 (dfMapOf [tokenize p]) (tokenize p)) = 0) :
    relevantParagraphs q [p] = [] := by
  rw [relevantParagraphs, rankedScores_singleton, hz]
  have hdf : (decide ((1 : ℝ) / 10 < ((0, (0 : ℝ)) : ℕ × ℝ).2)) = false :=
    decide_eq_false (by norm_num)
  rw [show List.take 3 [((0 : ℕ), (0 : ℝ))] = [(0, 0)] from rfl,
    List.filter_cons, hdf]
  rfl

end Chatbot

namespace Chatbot

/-- Closed witness for `composer_ranking_policy`: on a one-paragraph context
with zero term overlap the composer falls back to the keyword/topic path. -/
theorem composer_ranking_policy_witness :
    generateRuleBasedAnswer "zzz".data
        "The solar system has eight major planets orbiting the sun in nearly circular paths.".data
        [] none =
      generateEnhancedFallback "zzz".data
        "The solar system has eight major planets orbiting the sun in nearly circular paths.".data
        [] none := by
  have hparas : composerParas
      "The solar system has eight major planets orbiting the sun in nearly circular paths.".data =
      ["The solar system has eight major planets orbiting the sun in nearly circular paths.".data] := by
    decide
  have hnone : mapGet
      (vecOfDoc 1
        (dfMapOf [tokenize "The solar system has eight major planets orbiting the sun in nearly circular paths.".data])
        (tokenize "The solar system has eight major planets orbiting the sun in nearly circular paths.".data))
      "zzz".data = none := by
    rw [vecOfDoc_get, tfMap_char, if_neg (by decide)]
    rfl
  have hqkeys : (vectorizeQuery "zzz".data
      (tfidfParagraphs ["The solar system has eight major planets orbiting the sun in nearly circular paths.".data]).2
      1).map Prod.fst = ["zzz".data] := rfl
  have hz : cosine
      (vectorizeQuery "zzz".data
        (tfidfParagraphs ["The solar system has eight major planets orbiting the sun in nearly circular paths.".data]).2 1)
      (vecOfDoc 1
        (dfMapOf [tokenize "The solar system has eight major planets orbiting the sun in nearly circular paths.".data])
        (tokenize "The solar system has eight major planets orbiting the sun in nearly circular paths.".data)) = 0 := by
    apply cosine_zero_of_no_overlap
    intro p hp
    have hmem : p.1 ∈ (vectorizeQuery "zzz".data
        (tfidfParagraphs ["The solar system has eight major planets orbiting the sun in nearly circular paths.".data]).2
        1).map Prod.fst := List.mem_map_of_mem Prod.fst hp
    rw [hqkeys, List.mem_singleton] at hmem
    rw [hmem]
    exact hnone
  have hrel : relevantParagraphs "zzz".data
      (composerParas "The solar system has eight major planets orbiting the sun in nearly circular paths.".data) = [] := by
    rw [hparas]
    exact relevantParagraphs_singleton_zero _ _ hz
  exact (composer_ranking_policy.2 "zzz".data
    "The solar system has eight major planets orbiting the sun in nearly circular paths.".data
    [] none (by decide) (by rw [hparas]; decide)).1 hrel

end Chatbot

namespace Chatbot

/-- CLAIM C5 (amended). The deterministic composer path always returns a
non-empty string; an empty context yields the guidance message; for questions
that are not educational-explanation requests, a context with zero surviving
paragraphs yields the insufficient-content message and zero surviving ranked
candidates yields the keyword/topic fallback. -/
theorem composer_deterministic_total :
    ∀ (question context : Str) (sections : List Section) (activeId : Option Str),
      demoAnswerNoAI question context sections activeId ≠ [] ∧
      (trimStr context = [] →
        demoAnswerNoAI question context sections activeId = noContentMsg) ∧
      (isEducationalExplanationRequest question = false → trimStr context ≠ [] →
        composerParas (cleanContent context) = [] →
        demoAnswerNoAI question context sections activeId = insufficientMsg) ∧
      (isEducationalExplanationRequest question = false → trimStr context ≠ [] →
        composerParas (cleanContent context) ≠ [] →
        relevantParagraphs question (composerParas (cleanContent context)) = [] →
        demoAnswerNoAI question context sections activeId =
          generateEnhancedFallback question (cleanContent context) sections activeId) := by
  intro q c secs aid
  by_cases hc : c = [] ∨ (trimStr c).length = 0
  · have heq : demoAnswerNoAI q c secs aid = noContentMsg := by
      rw [demoAnswerNoAI, if_pos hc]
    have htrim : trimStr c = [] := by
      rcases hc with h | h
      · subst h; rfl
      · exact List.length_eq_zero.mp h
    exact ⟨by rw [heq]; decide, fun _ => heq,
      fun _ h2 _ => absurd htrim h2, fun _ h2 _ _ => absurd htrim h2⟩
  · have heq0 : demoAnswerNoAI q c secs aid =
        generateRuleBasedAnswer q (cleanContent c) secs aid := by
      rw [demoAnswerNoAI, if_neg hc]
    have htrim : trimStr c ≠ [] := by
      intro h
      exact hc (Or.inr (by rw [h]; rfl))
    by_cases hedu : isEducationalExplanationRequest q = true
    · have heq : demoAnswerNoAI q c secs aid =
          handleEducationalExplanation q (cleanContent c) secs aid := by
        rw [heq0, generateRuleBasedAnswer, if_pos hedu]
      refine ⟨by rw [heq]; exact handleEducationalExplanation_ne _ _ _ _,
        fun h => absurd h htrim, ?_, ?_⟩
      · intro hf _ _
        rw [hf] at hedu
        exact absurd hedu (by simp)
      · intro hf _ _ _
        rw [hf] at hedu
        exact absurd hedu (by simp)
    · by_cases hp : composerParas (cleanContent c) = []
      · have heq : demoAnswerNoAI q c secs aid = insufficientMsg := by
          rw [heq0, generateRuleBasedAnswer, if_neg hedu, if_pos hp]
        exact ⟨by rw [heq]; decide, fun h => absurd h htrim,
          fun _ _ _ => heq, fun _ _ hpne _ => absurd hp hpne⟩
      · by_cases hrel : relevantParagraphs q (composerParas (cleanContent c)) = []
        · have heq : demoAnswerNoAI q c secs aid =
              generateEnhancedFallback q (cleanContent c) secs aid := by
            rw [heq0, generateRuleBasedAnswer, if_neg hedu, if_neg hp, if_pos hrel]
          exact ⟨by rw [heq]; exact generateEnhancedFallback_ne _ _ _ _,
            fun h => absurd h htrim, fun _ _ hpeq => absurd hpeq hp,
            fun _ _ _ _ => heq⟩
        · have heq : demoAnswerNoAI q c secs aid =
              generateNaturalAnswer q
                  (relevantParagraphs q (composerParas (cleanContent c))) ++
                "\n\n*".data ++ getSourceInfo secs aid ++ "*".data := by
            rw [heq0, generateRuleBasedAnswer, if_neg hedu, if_neg hp, if_neg hrel]
          exact ⟨by rw [heq]; exact ne_nil_of_append_right (by decide),
            fun h => absurd h htrim, fun _ _ hpeq => absurd hpeq hp,
            fun _ _ _ hreleq => absurd hreleq hrel⟩

/-- Counterexample to C5 as frozen: for the educational-explanation question
`explain` over a short non-empty context with zero surviving paragraphs, the
composer returns the educational guidance message, not the
insufficient-content message. -/
theorem composer_eduBranch_counterexample :
    trimStr "Photosynthesis converts light.".data ≠ [] ∧
    composerParas (cleanContent "Photosynthesis converts light.".data) = [] ∧
    demoAnswerNoAI "explain".data "Photosynthesis converts light.".data [] none ≠
      insufficientMsg := by
  refine ⟨by decide, by decide, by decide⟩

/-- Closed witness for the hypotheses of `composer_deterministic_total`,
exercising the empty-context branch and the insufficient-content branch. -/
theorem composer_deterministic_total_witness :
    demoAnswerNoAI "hi".data [] [] none = noContentMsg ∧
    demoAnswerNoAI "zz".data "short text here".data [] none = insufficientMsg :=
  ⟨(composer_deterministic_total "hi".data [] [] none).2.1 rfl,
   (composer_deterministic_total "zz".data "short text here".data [] none).2.2.1
     (by decide) (by decide) (by decide)⟩

end Chatbot

namespace Chatbot

/-- Scanner for the sectioner cleaner `replace(/(\w+)-\s*\n\s*(\w+)/g, '$1$2')`
(merge hyphenated line-break word splits): mode 0 outside a word, 1 inside a
word, 2 after `word-` collecting whitespace without a newline yet, 3 after a
newline was seen, 4 consuming the merged second word. -/
def rep1Go : ℕ → Str → Str → Str
  | 0, _, [] => []
  | 1, _, [] => []
  | 2, buf, [] => buf.reverse
  | 3, buf, [] => buf.reverse
  | _, _, [] => []
  | 0, _, c :: t => if isWordCh c then c :: rep1Go 1 [] t else c :: rep1Go 0 [] t
  | 1, _, c :: t =>
    if isWordCh c then c :: rep1Go 1 [] t
    else if c = '-' then rep1Go 2 ['-'] t
    else c :: rep1Go 0 [] t
  | 2, buf, c :: t =>
    if c = '\n' then rep1Go 3 (c :: buf) t
    else if isWs c then rep1Go 2 (c :: buf) t
    else if isWordCh c then buf.reverse ++ c :: rep1Go 1 [] t
    else buf.reverse ++ c :: rep1Go 0 [] t
  | 3, buf, c :: t =>
    if isWs c then rep1Go 3 (c :: buf) t
    else if isWordCh c then c :: rep1Go 4 [] t
    else buf.reverse ++ c :: rep1Go 0 [] t
  | 4, _, c :: t => if isWordCh c then c :: rep1Go 4 [] t else c :: rep1Go 0 [] t
  | _ + 5, _, _ :: _ => []

/-- `replace(/(\w+)-\s*\n\s*(\w+)/g, '$1$2')`. -/
def rep1 (s : Str) : Str := rep1Go 0 [] s

/-- Emitted text when a whitespace run following a newline ends, for
`replace(/\n\s*\n/g, '\n\n')`: if the run contains another newline the match
(up to the last newline of the run) is replaced by two newlines and the
non-newline tail of the run is kept; otherwise everything is kept. -/
def flushRep4 (buf : Str) : Str :=
  if buf.contains '\n' then
    '\n' :: '\n' :: (buf.takeWhile (fun c => !(c == '\n'))).reverse
  else '\n' :: buf.reverse

/-- Scanner for `replace(/\n\s*\n/g, '\n\n')`; the flag marks that a newline
opened a whitespace run (kept reversed in the buffer). -/
def rep4Go : Bool → Str → Str → Str
  | false, _, [] => []
  | true, buf, [] => flushRep4 buf
  | false, _, c :: t => if c = '\n' then rep4Go true [] t else c :: rep4Go false [] t
  | true, buf, c :: t =>
    if isWs c then rep4Go true (c :: buf) t
    else flushRep4 buf ++ c :: rep4Go false [] t

/-- `replace(/\n\s*\n/g, '\n\n')`. -/
def rep4 (s : Str) : Str := rep4Go false [] s

/-- `cleanTextContent` from the sectioner: merge hyphenated line breaks, fix
punctuation spacing, collapse whitespace runs, normalize blank lines, trim. -/
def cleanTextContent (text : Str) : Str :=
  trimStr (rep4 (rep3 (rep2 (rep1 text))))

/-- Roman numeral letters `[ivxlcdm]` with the `i` flag. -/
def isRomanCh (c : Char) : Bool :=
  let l := c.toLower
  l == 'i' || l == 'v' || l == 'x' || l == 'l' || l == 'c' || l == 'd' || l == 'm'

/-- The class `[\s\.:]`. -/
def isWsDotColon (c : Char) : Bool := isWs c || c == '.' || c == ':'

/-- Continuation of chapter pattern 1 after the keyword and whitespace: a
numeral run (roman or digit, passed in), then `[\s\.:]+`, then the `(.+)`
title group; when the title group would be empty the greedy separator run
gives back its final character. -/
def pat1Tail (run : Str) (r1 : Str) : Option Str :=
  if run = [] then none
  else
    let r2 := r1.drop run.length
    let sig := r2.takeWhile isWsDotColon
    if sig = [] then none
    else
      let r3 := r2.drop sig.length
      if r3 ≠ [] then some r3
      else if 2 ≤ sig.length then
        match sig.reverse with
        | c :: _ => some [c]
        | [] => none
      else none

/-- The keyword alternatives of chapter pattern 1. -/
def chapterWords : List Str :=
  ["chapter".data, "section".data, "part".data, "unit".data]

/-- Chapter pattern 1:
`/^(chapter|section|part|unit)\s+([ivxlcdm]+|\d+)[\s\.:]+(.+)$/i`, returning
the captured title group. -/
def pat1 (s : Str) : Option Str :=
  chapterWords.findSome? (fun w =>
    if (s.take w.length).map Char.toLower == w then
      let r0 := s.drop w.length
      let wsp := r0.takeWhile isWs
      if wsp = [] then none
      else
        let r1 := r0.drop wsp.length
        match pat1Tail (r1.takeWhile isRomanCh) r1 with
        | some t => some t
        | none => pat1Tail (r1.takeWhile isDigitCh) r1
    else none)

/-- Chapter pattern 2: `/^(\d+[\.\)]\s+.+)$/` (the whole line is the group). -/
def pat2 (s : Str) : Bool :=
  let ds := s.takeWhile isDigitCh
  if ds = [] then false
  else
    match s.drop ds.length with
    | c :: r1 =>
      if c == '.' || c == ')' then
        let w := r1.takeWhile isWs
        (decide (w ≠ []) && decide (r1.drop w.length ≠ [])) || decide (2 ≤ w.length)
      else false
    | [] => false

/-- The ASCII apostrophe character. -/
def apCh : Char := Char.ofNat 39

/-- Character class of chapter pattern 3. -/
def pat3Class (c : Char) : Bool :=
  isUpperCh c || isWs c || c == ':' || c == apCh || c == '-'

/-- Chapter pattern 3: `/^([A-Z][A-Z\s:'\-]{10,80})$/`. -/
def pat3 (s : Str) : Bool :=
  match s with
  | c :: rest =>
    isUpperCh c && decide (10 ≤ rest.length) && decide (rest.length ≤ 80) &&
      rest.all pat3Class
  | [] => false

/-- Chapter pattern 4: `/^#{1,3}\s+(.+)$/`, returning the group after the
hash run (more than three leading hashes defeats the anchored match). -/
def pat4 (s : Str) : Option Str :=
  let hs := s.takeWhile (· == '#')
  if 1 ≤ hs.length ∧ hs.length ≤ 3 then
    let r := s.drop hs.length
    let w := r.takeWhile isWs
    if w = [] then none
    else
      let r2 := r.drop w.length
      if r2 ≠ [] then some r2
      else if 2 ≤ w.length then
        match w.reverse with
        | c :: _ => some [c]
        | [] => none
      else none
  else none

/-- Whether a string matches the suffix `\s+\.{3,}\s*\d+$` entirely. -/
def pat5suffix (s : Str) : Bool :=
  let w := s.takeWhile isWs
  if w = [] then false
  else
    let r := s.drop w.length
    let dots := r.takeWhile (· == '.')
    if dots.length < 3 then false
    else
      let r2 := r.drop dots.length
      let w2 := r2.takeWhile isWs
      let r3 := r2.drop w2.length
      decide (r3 ≠ []) && r3.all isDigitCh

/-- Chapter pattern 5: `/^(.+)\s+\.{3,}\s*\d+$/` (title with dot leaders and
a page number); the greedy group takes the longest prefix whose remainder
matches the suffix. -/
def pat5 (s : Str) : Option Str :=
  (List.range s.length).reverse.findSome? (fun k =>
    if 1 ≤ k ∧ pat5suffix (s.drop k) = true then some (s.take k) else none)

/-- Character class `[a-z\s:]` of chapter pattern 6. -/
def pat6Low (c : Char) : Bool :=
  decide (97 ≤ c.toNat ∧ c.toNat ≤ 122) || isWs c || c == ':'

/-- Chapter pattern 6: `/^([A-Z][a-z\s:]+[A-Z][a-z\s:]{5,})$/`. -/
def pat6 (s : Str) : Bool :=
  match s with
  | c :: rest =>
    isUpperCh c &&
      (let m1 := rest.takeWhile pat6Low
       decide (m1 ≠ []) &&
         (match rest.drop m1.length with
          | c2 :: rest2 =>
            isUpperCh c2 && rest2.all pat6Low && decide (5 ≤ rest2.length)
          | [] => false))
  | [] => false

/-- Chapter pattern 7: the fixed vocabulary of common section names, with the
optional plural of acknowledgment. -/
def commonSectionWords : List Str :=
  ["introduction".data, "conclusion".data, "summary".data, "abstract".data,
   "preface".data, "acknowledgment".data, "acknowledgments".data]

/-- Chapter pattern 7 test (case-insensitive anchored match). -/
def pat7 (s : Str) : Bool := commonSectionWords.contains (s.map Char.toLower)

/-- Content pattern `/^\s*\d+\s*$/` (a bare page number). -/
def isJustNumber (s : Str) : Bool :=
  let a := s.dropWhile isWs
  let d := a.takeWhile isDigitCh
  decide (d ≠ []) && (a.drop d.length).all isWs

/-- Content pattern `/^[\s\.\-_]{3,}$/` (a decorative line). -/
def isDecorative (s : Str) : Bool :=
  decide (3 ≤ s.length) && s.all (fun c => isWs c || c == '.' || c == '-' || c == '_')

/-- Content pattern `/^\[\[PAGE:\d+\]\]$/` (a bare page marker). -/
def isBareMarker (s : Str) : Bool :=
  match markerParse s with
  | some (_, r) => r.isEmpty
  | none => false

/-- The content patterns that immediately reject a line as a header. -/
def contentPat (s : Str) : Bool := isJustNumber s || isDecorative s || isBareMarker s

/-- The ordered chapter patterns with the `match[3] || match[1] || trimmed`
title extraction of the source. -/
def chapterPatTitle (s : Str) : Option Str :=
  match pat1 s with
  | some g3 => some g3
  | none =>
    if pat2 s then some s
    else if pat3 s then some s
    else
      match pat4 s with
      | some g1 => some g1
      | none =>
        match pat5 s with
        | some g1 => some g1
        | none =>
          if pat6 s then some s
          else if pat7 s then some s
          else none

/-- `title.replace(/^#+\s*/, '').trim()`. -/
def stripHashTrim (t : Str) : Str :=
  match t with
  | '#' :: _ => trimStr ((t.dropWhile (· == '#')).dropWhile isWs)
  | _ => trimStr t

/-- The additional title heuristic: length strictly between 5 and 100, first
character uppercase, no sentence-final punctuation, uppercase ratio strictly
between 10 and 80 percent (`n * 0.25`-style float comparisons are exact at
these denominators, so the rational comparison is faithful). -/
def fallbackHeur (s : Str) : Option Str :=
  if decide (5 < s.length) && decide (s.length < 100) &&
      (match s with | c :: _ => isUpperCh c | [] => false) &&
      (match s.reverse with
       | l :: _ => !(l == '.' || l == '!' || l == '?')
       | [] => true) &&
      decide (s.length < 10 * (s.filter isUpperCh).length) &&
      decide (5 * (s.filter isUpperCh).length < 4 * s.length) then
    some s
  else none

/-- `isLikelyHeader` from the sectioner; `some title` stands for
`{isHeader: true, title}`. -/
def isLikelyHeader (line : Str) : Option Str :=
  let trimmed := trimStr line
  if contentPat trimmed then none
  else
    match chapterPatTitle trimmed with
    | some rawTitle => some (stripHashTrim rawTitle)
    | none => fallbackHeur trimmed

/-- The caller-side header condition
`headerCheck.isHeader && headerCheck.title` (the title must be truthy). -/
def headerTitleOf (line : Str) : Option Str :=
  match isLikelyHeader line with
  | some t => if t = [] then none else some t
  | none => none

/-- `firstPageOf` from the sectioner: the first match of
`/\[\[PAGE:(\d+)\]\]/` scanning left to right. -/
def firstPageOf : Str → Option ℕ
  | [] => none
  | c :: t =>
    match markerParse (c :: t) with
    | some (n, _) => some n
    | none => firstPageOf t

/-- Split on a single character, keeping empty pieces (`split(/\n/)`). -/
def scGo (sep : Char) : Str → Str → List Str
  | acc, [] => [acc.reverse]
  | acc, c :: t => if c = sep then acc.reverse :: scGo sep [] t else scGo sep (c :: acc) t

/-- `b.split(/\n/).filter(line => line.trim())`. -/
def linesOf (b : Str) : List Str :=
  (scGo '\n' [] b).filter (fun l => decide (trimStr l ≠ []))

/-- The current open section of the sectioner loop. -/
structure CurSec where
  title : Str
  startPage : Option ℕ
  text : List Str
deriving DecidableEq

/-- The sectioner loop state: emitted sections, the open section, the
auto-title counter and the deterministic id counter. -/
structure SectState where
  secs : List Section
  cur : Option CurSec
  autoIndex : ℕ
  nextId : ℕ
deriving DecidableEq

/-- `Math.ceil(s.length / 4)`. -/
def estimateTokens (s : Str) : ℕ := (s.length + 3) / 4

/-- `flush` from the sectioner: emit the open section when its cleaned text
exceeds 50 characters, drop it otherwise. -/
def flushSec (sourceId : Str) (st : SectState) (endPage : Option ℕ) : SectState :=
  match st.cur with
  | none => st
  | some c =>
    let cleaned := cleanTextContent (List.intercalate "\n\n".data c.text)
    if 50 < cleaned.length then
      { st with
        secs := st.secs ++
          [{ id := natStr st.nextId, sourceId := sourceId, title := c.title,
             startPage := c.startPage, endPage := endPage, text := cleaned,
             tokensEstimated := estimateTokens cleaned }],
        cur := none, nextId := st.nextId + 1 }
    else { st with cur := none }

/-- The end page passed to `flush` on a header block:
`firstPageOf(b) ? firstPageOf(b) - 1 : undefined` (0 is falsy). -/
def endFromMarker (o : Option ℕ) : Option ℕ :=
  match o with
  | some p => if p ≠ 0 then some (p - 1) else none
  | none => none

/-- One iteration of the sectioner block loop. -/
def stepBlock (sourceId : Str) (st : SectState) (b : Str) : SectState :=
  if linesOf b = [] then st
  else
    match headerTitleOf (trimStr ((linesOf b).headD [])) with
    | some title =>
      let st2 := flushSec sourceId st (endFromMarker (firstPageOf b))
      { st2 with cur := some { title := title, startPage := firstPageOf b, text := [b] } }
    | none =>
      match st.cur with
      | none =>
        { st with
          cur := some { title := "Section ".data ++ natStr st.autoIndex,
                        startPage := some ((firstPageOf b).getD 1), text := [b] },
          autoIndex := st.autoIndex + 1 }
      | some c => { st with cur := some { c with text := c.text ++ [b] } }

/-- The inline page marker `[[PAGE:n]]`. -/
def markerStr (n : ℕ) : Str := "[[PAGE:".data ++ natStr n ++ "]]".data

/-- The tagged-and-joined document:
`rawPages.map((t, i) => "[[PAGE:" + (i+1) + "]]\n" + t).join("\n\n")`. -/
def pageTagged (rawPages : List Str) : Str :=
  List.intercalate "\n\n".data
    (rawPages.mapIdx (fun i t => markerStr (i + 1) ++ '\n' :: t))

/-- The block list of the sectioner:
`all.split(/\n{2,}/).map(b => b.trim()).filter(Boolean)`. -/
def blocksOf (rawPages : List Str) : List Str :=
  ((splitBlanks (pageTagged rawPages)).map trimStr).filter (fun b => decide (b ≠ []))

/-- The header-detection phase of `splitChapters`: fold the block loop and
flush the final section at the last page number. -/
def headerPhaseSections (rawPages : List Str) (sourceId : Str) : List Section :=
  (flushSec sourceId
    ((blocksOf rawPages).foldl (stepBlock sourceId)
      { secs := [], cur := none, autoIndex := 1, nextId := 0 })
    (some rawPages.length)).secs

/-- The fixed 8-page fallback windows (fuel-driven structural recursion; the
fuel starts at the page count and always dominates the remaining length). -/
def fbGo (sourceId : Str) (total : ℕ) : ℕ → List Str → ℕ → ℕ → List Section
  | 0, _, _, _ => []
  | _ + 1, [], _, _ => []
  | fuel + 1, p :: rest, i, nid =>
    { id := natStr nid, sourceId := sourceId,
      title := "Section ".data ++ natStr (i / 8 + 1),
      startPage := some (i + 1), endPage := some (min (i + 8) total),
      text := cleanTextContent (List.intercalate "\n\n".data
        ((List.take 8 (p :: rest)).mapIdx (fun k q => markerStr (i + k + 1) ++ '\n' :: q))),
      tokensEstimated := estimateTokens (cleanTextContent (List.intercalate "\n\n".data
        ((List.take 8 (p :: rest)).mapIdx (fun k q => markerStr (i + k + 1) ++ '\n' :: q)))) } ::
      fbGo sourceId total fuel (List.drop 8 (p :: rest)) (i + 8) (nid + 1)

/-- `splitChapters` from the sectioner. -/
def splitChapters (rawPages : List Str) (sourceId : Str) : List Section :=
  if headerPhaseSections rawPages sourceId = [] then
    fbGo sourceId rawPages.length rawPages.length rawPages 0 0
  else headerPhaseSections rawPages sourceId

end Chatbot

namespace Chatbot

/-- Counterexample to C1 as frozen: on the two-page scenario input no emitted
section is titled `Origins`, because every page-initial block starts with the
inline page marker line, which is rejected by the content patterns before the
chapter heading on the second line is ever examined. -/
theorem sectioner_scenario_counterexample :
    ¬ ∃ s ∈ splitChapters
        ["Chapter 1: Origins\nLong paragraph A...".data, "More text...".data]
        "src".data,
      s.title = "Origins".data := by
  decide

/-- CLAIM C1 (amended). On the two-page scenario input the sectioner emits
exactly one Section, titled `Section 1`, with startPage 1 (and endPage 2). -/
theorem sectioner_scenario_amended :
    (splitChapters
        ["Chapter 1: Origins\nLong paragraph A...".data, "More text...".data]
        "src".data).map (fun s => (s.title, s.startPage, s.endPage)) =
      [("Section 1".data, some 1, some 2)] := by
  decide

end Chatbot

namespace Chatbot

/-- Placeholder section used only as a `getD` default in statements. -/
def dummySec : Section :=
  { id := [], sourceId := [], title := [], startPage := none, endPage := none,
    text := [], tokensEstimated := 0 }

theorem fbGo_length (sourceId : Str) (total : ℕ) :
    ∀ (fuel : ℕ) (rem : List Str) (i nid : ℕ), rem.length ≤ fuel →
      (fbGo sourceId total fuel rem i nid).length = (rem.length + 7) / 8 := by
  intro fuel
  induction fuel with
  | zero =>
    intro rem i nid h
    have hnil : rem = [] := List.length_eq_zero.mp (by omega)
    subst hnil
    rfl
  | succ f ih =>
    intro rem i nid h
    cases rem with
    | nil => rfl
    | cons p rest =>
      show (_ :: fbGo sourceId total f (List.drop 8 (p :: rest)) (i + 8) (nid + 1)).length = _
      rw [List.length_cons, ih (List.drop 8 (p :: rest)) (i + 8) (nid + 1)
        (by rw [List.length_drop]; simp only [List.length_cons] at h ⊢; omega)]
      rw [List.length_drop]
      simp only [List.length_cons]
      omega

theorem fbGo_get (sourceId : Str) (total : ℕ) :
    ∀ (fuel : ℕ) (rem : List Str) (i nid k : ℕ), rem.length ≤ fuel →
      k < (fbGo sourceId total fuel rem i nid).length →
      ((fbGo sourceId total fuel rem i nid).getD k dummySec).title =
          "Section ".data ++ natStr (i / 8 + k + 1) ∧
        ((fbGo sourceId total fuel rem i nid).getD k dummySec).startPage =
          some (i + 8 * k + 1) ∧
        ((fbGo sourceId total fuel rem i nid).getD k dummySec).endPage =
          some (min (i + 8 * k + 8) total) := by
  intro fuel
  induction fuel with
  | zero =>
    intro rem i nid k h hk
    have hnil : rem = [] := List.length_eq_zero.mp (by omega)
    subst hnil
    simp [fbGo] at hk
  | succ f ih =>
    intro rem i nid k h hk
    cases rem with
    | nil => simp [fbGo] at hk
    | cons p rest =>
      cases k with
      | zero =>
        refine ⟨?_, ?_, ?_⟩
        · show ("Section ".data ++ natStr (i / 8 + 1)) = "Section ".data ++ natStr (i / 8 + 0 + 1)
          rfl
        · show some (i + 1) = some (i + 8 * 0 + 1)
          rfl
        · show some (min (i + 8) total) = some (min (i + 8 * 0 + 8) total)
          rfl
      | succ k0 =>
        have hk0 : k0 < (fbGo sourceId total f (List.drop 8 (p :: rest)) (i + 8) (nid + 1)).length := by
          have hk2 : k0 + 1 <
              (fbGo sourceId total f (List.drop 8 (p :: rest)) (i + 8) (nid + 1)).length + 1 := hk
          omega
        have hlen : (List.drop 8 (p :: rest)).length ≤ f := by
          rw [List.length_drop]
          simp only [List.length_cons] at h ⊢
          omega
        have hstep := ih (List.drop 8 (p :: rest)) (i + 8) (nid + 1) k0 hlen hk0
        have hgd : (fbGo sourceId total (f + 1) (p :: rest) i nid).getD (k0 + 1) dummySec =
            (fbGo sourceId total f (List.drop 8 (p :: rest)) (i + 8) (nid + 1)).getD k0 dummySec := by
          show (_ :: fbGo sourceId total f (List.drop 8 (p :: rest)) (i + 8) (nid + 1)).getD
            (k0 + 1) dummySec = _
          rw [List.getD_cons_succ]
        rw [hgd]
        refine ⟨?_, ?_, ?_⟩
        · rw [hstep.1]
          have harith : (i + 8) / 8 + k0 + 1 = i / 8 + (k0 + 1) + 1 := by omega
          rw [harith]
        · rw [hstep.2.1]
          have harith : i + 8 + 8 * k0 + 1 = i + 8 * (k0 + 1) + 1 := by omega
          rw [harith]
        · rw [hstep.2.2]
          have harith : i + 8 + 8 * k0 + 8 = i + 8 * (k0 + 1) + 8 := by omega
          rw [harith]

/-- CLAIM C3. If the header-detection phase emits zero sections,
`splitChapters` returns the fixed 8-page windows, titled `Section 1`,
`Section 2`, ... in order, with start page `8k+1` and end page
`min(8k+8, pageCount)`, covering every input page exactly once; and for every
non-empty page sequence the result is non-empty. -/
theorem sectioner_fallback_windows :
    ∀ (rawPages : List Str) (sourceId : Str),
      (headerPhaseSections rawPages sourceId = [] →
        (splitChapters rawPages sourceId).length = (rawPages.length + 7) / 8 ∧
        (∀ k, k < (splitChapters rawPages sourceId).length →
          ((splitChapters rawPages sourceId).getD k dummySec).title =
            "Section ".data ++ natStr (k + 1) ∧
          ((splitChapters rawPages sourceId).getD k dummySec).startPage =
            some (8 * k + 1) ∧
          ((splitChapters rawPages sourceId).getD k dummySec).endPage =
            some (min (8 * k + 8) rawPages.length)) ∧
        (∀ p, 1 ≤ p → p ≤ rawPages.length →
          ∃! k, k < (splitChapters rawPages sourceId).length ∧
            8 * k + 1 ≤ p ∧ p ≤ min (8 * k + 8) rawPages.length)) ∧
      (rawPages ≠ [] → splitChapters rawPages sourceId ≠ []) := by
  intro rawPages sourceId
  constructor
  · intro hhp
    have hsplit : splitChapters rawPages sourceId =
        fbGo sourceId rawPages.length rawPages.length rawPages 0 0 := by
      rw [splitChapters, if_pos hhp]
    have hlen : (splitChapters rawPages sourceId).length = (rawPages.length + 7) / 8 := by
      rw [hsplit]
      exact fbGo_length sourceId rawPages.length rawPages.length rawPages 0 0 le_rfl
    refine ⟨hlen, ?_, ?_⟩
    · intro k hk
      rw [hsplit] at hk ⊢
      have := fbGo_get sourceId rawPages.length rawPages.length rawPages 0 0 k le_rfl hk
      simpa using this
    · intro p hp1 hp2
      refine ⟨(p - 1) / 8, ⟨?_, ?_, ?_⟩, ?_⟩
      · rw [hlen]; omega
      · omega
      · omega
      · intro y hy
        obtain ⟨_, hy2, hy3⟩ := hy
        omega
  · intro hne
    by_cases hhp : headerPhaseSections rawPages sourceId = []
    · rw [splitChapters, if_pos hhp]
      cases rawPages with
      | nil => exact absurd rfl hne
      | cons p rest =>
        show (_ :: _) ≠ []
        simp
    · rw [splitChapters, if_neg hhp]
      exact hhp

/-- Closed witness for `sectioner_fallback_windows` on a one-page input with
no headers and a too-short auto-section. -/
theorem sectioner_fallback_windows_witness :
    headerPhaseSections ["hi".data] "s".data = [] ∧
    (splitChapters ["hi".data] "s".data).length =
      ((["hi".data] : List Str).length + 7) / 8 ∧
    splitChapters ["hi".data] "s".data ≠ [] := by
  have h := sectioner_fallback_windows ["hi".data] "s".data
  have hhp : headerPhaseSections ["hi".data] "s".data = [] := by decide
  exact ⟨hhp, (h.1 hhp).1, h.2 (by decide)⟩

end Chatbot

namespace Chatbot

/-- The trim-and-filter block post-processing applied to a split document. -/
def blocksTF (s : Str) : List Str :=
  ((splitBlanks s).map trimStr).filter (fun b => decide (b ≠ []))

theorem blocksOf_eq_blocksTF (rawPages : List Str) :
    blocksOf rawPages = blocksTF (pageTagged rawPages) := rfl

/-- A string contains an occurrence of the page-marker opener. -/
def hasMarkerSub (t : Str) : Prop := ∃ pre post, t = pre ++ "[[PAGE:".data ++ post

/-- A page text free of the page-marker opener `[[PAGE:`. -/
def pfree (t : Str) : Prop := ¬ hasMarkerSub t

theorem isPrefixOf_iff_exists (a b : Str) :
    a.isPrefixOf b = true ↔ ∃ r, b = a ++ r := by
  rw [List.isPrefixOf_iff_prefix]
  constructor
  · rintro ⟨r, hr⟩
    exact ⟨r, hr.symm⟩
  · rintro ⟨r, hr⟩
    exact ⟨r, hr.symm⟩

theorem containsSubGo_iff (sub s : Str) :
    containsSubGo sub s = true ↔ ∃ pre post, s = pre ++ sub ++ post := by
  induction s with
  | nil =>
    simp only [containsSubGo, List.isEmpty_iff]
    constructor
    · intro h
      exact ⟨[], [], by simp [h]⟩
    · rintro ⟨pre, post, hp⟩
      have h2 : pre = [] ∧ sub = [] ∧ post = [] := by simpa using hp.symm
      exact h2.2.1
  | cons c t ih =>
    simp only [containsSubGo, Bool.or_eq_true, ih, isPrefixOf_iff_exists]
    constructor
    · rintro (⟨r, hr⟩ | ⟨pre, post, hp⟩)
      · exact ⟨[], r, by simpa using hr⟩
      · exact ⟨c :: pre, post, by simp [hp]⟩
    · rintro ⟨pre, post, hp⟩
      cases pre with
      | nil => exact Or.inl ⟨post, by simpa using hp⟩
      | cons c0 pre0 =>
        right
        refine ⟨pre0, post, ?_⟩
        have := hp
        simp only [List.cons_append, List.cons.injEq] at this
        exact this.2

theorem pfree_iff_strIncludes (t : Str) :
    pfree t ↔ strIncludes t "[[PAGE:".data = false := by
  unfold pfree hasMarkerSub strIncludes
  rw [← containsSubGo_iff "[[PAGE:".data t]
  constructor
  · intro h
    cases hv : containsSubGo "[[PAGE:".data t
    · rfl
    · exact absurd hv h
  · intro h hc
    rw [h] at hc
    cases hc

theorem pfree_of_cons (c : Char) (t : Str) (h : pfree (c :: t)) : pfree t := by
  intro hc
  rcases hc with ⟨pre, post, hp⟩
  exact h ⟨c :: pre, post, by simp [hp]⟩

theorem pfree_of_infix (b t : Str) (h : pfree t) (hi : b <:+: t) : pfree b := by
  rcases hi with ⟨s1, s2, hs⟩
  rintro ⟨pre, post, hp⟩
  exact h ⟨s1 ++ pre, post ++ s2, by rw [← hs, hp]; simp⟩

theorem firstPageOf_eq_none_of_pfree (b : Str) (h : pfree b) :
    firstPageOf b = none := by
  induction b with
  | nil => rfl
  | cons c t ih =>
    rw [firstPageOf]
    have hmp : markerParse (c :: t) = none := by
      cases hv : markerParse (c :: t) with
      | none => rfl
      | some nr =>
        exfalso
        rw [markerParse] at hv
        by_cases hpre : "[[PAGE:".data.isPrefixOf (c :: t) = true
        · rcases (isPrefixOf_iff_exists _ _).mp hpre with ⟨r, hr⟩
          exact h ⟨[], r, by simpa using hr⟩
        · rw [if_neg hpre] at hv
          cases hv
    rw [hmp]
    exact ih (pfree_of_cons c t h)

theorem dropWhile_append_of_head {p : Char → Bool} (a b : Str) (hb : b ≠ [])
    (hh : p (b.headD ' ') = false) :
    (a ++ b).dropWhile p = a.dropWhile p ++ b := by
  induction a with
  | nil =>
    cases b with
    | nil => exact absurd rfl hb
    | cons c t =>
      simp only [List.nil_append, List.dropWhile_nil]
      rw [List.dropWhile_cons, if_neg (by simp_all)]
  | cons c t ih =>
    rw [List.cons_append, List.dropWhile_cons, List.dropWhile_cons]
    by_cases hp : p c = true
    · rw [if_pos hp, if_pos hp, ih]
    · rw [if_neg hp, if_neg hp, List.cons_append]

theorem takeWhile_append_of_all {p : Char → Bool} (a b : Str)
    (ha : ∀ c ∈ a, p c = true) (hb : b ≠ []) (hh : p (b.headD ' ') = false) :
    (a ++ b).takeWhile p = a := by
  induction a with
  | nil =>
    cases b with
    | nil => exact absurd rfl hb
    | cons c t =>
      simp only [List.nil_append]
      rw [List.takeWhile_cons, if_neg (by simp_all)]
  | cons c t ih =>
    rw [List.cons_append, List.takeWhile_cons,
      if_pos (ha c (List.mem_cons_self _ _))]
    rw [ih (fun x hx => ha x (List.mem_cons_of_mem _ hx))]

theorem drop_length_append (a b : Str) : (a ++ b).drop a.length = b := by
  simp

end Chatbot

namespace Chatbot

theorem digitsVal_append_digit (a : Str) (c : Char) :
    digitsVal (a ++ [c]) = 10 * digitsVal a + (c.toNat - 48) := by
  unfold digitsVal
  rw [List.foldl_append]
  rfl

theorem natStrGo_spec : ∀ (fuel n : ℕ), n ≤ fuel →
    (∀ c ∈ natStrGo fuel n, isDigitCh c = true) ∧
    digitsVal (natStrGo fuel n) = n ∧
    (1 ≤ n → natStrGo fuel n ≠ []) := by
  intro fuel
  induction fuel with
  | zero =>
    intro n h
    have hn : n = 0 := by omega
    subst hn
    exact ⟨(by intro c hc; cases hc), rfl, (by omega)⟩
  | succ f ih =>
    intro n h
    cases n with
    | zero => exact ⟨(by intro c hc; cases hc), rfl, (by omega)⟩
    | succ k =>
      have hdiv : (k + 1) / 10 ≤ f := by omega
      have ihd := ih ((k + 1) / 10) hdiv
      have hmod : (k + 1) % 10 < 10 := Nat.mod_lt _ (by omega)
      have hchar : isDigitCh (Char.ofNat (48 + (k + 1) % 10)) = true := by
        interval_cases h2 : (k + 1) % 10 <;> decide
      refine ⟨?_, ?_, ?_⟩
      · intro c hc
        rw [natStrGo] at hc
        rcases List.mem_append.mp hc with hc1 | hc2
        · exact ihd.1 c hc1
        · rw [List.mem_singleton] at hc2
          rw [hc2]
          exact hchar
      · rw [natStrGo, digitsVal_append_digit, ihd.2.1]
        have htn : (Char.ofNat (48 + (k + 1) % 10)).toNat = 48 + (k + 1) % 10 := by
          interval_cases h2 : (k + 1) % 10 <;> decide
        rw [htn]
        omega
      · intro _
        rw [natStrGo]
        simp

theorem natStr_spec (n : ℕ) :
    (∀ c ∈ natStr n, isDigitCh c = true) ∧ digitsVal (natStr n) = n ∧ natStr n ≠ [] := by
  unfold natStr
  by_cases hn : n = 0
  · subst hn
    rw [if_pos rfl]
    exact ⟨(by intro c hc; rw [List.mem_singleton] at hc; rw [hc]; decide), rfl, (by simp)⟩
  · rw [if_neg hn]
    have h := natStrGo_spec n n le_rfl
    exact ⟨h.1, h.2.1, h.2.2 (by omega)⟩

theorem isWs_of_digit_false (c : Char) (h : isDigitCh c = true) : isWs c = false := by
  unfold isDigitCh at h
  simp only [decide_eq_true_eq] at h
  unfold isWs
  simp only [Bool.or_eq_false_iff, beq_eq_false_iff_ne, ne_eq]
  refine ⟨⟨⟨⟨⟨?_, ?_⟩, ?_⟩, ?_⟩, ?_⟩, ?_⟩ <;>
    (intro he; rw [he] at h; exact absurd h (by decide))

theorem parseDigitsNat_natStr (i : ℕ) (c : Char) (z : Str)
    (hc : isDigitCh c = false) :
    parseDigitsNat (natStr i ++ c :: z) = some (i, c :: z) := by
  have hns := natStr_spec i
  unfold parseDigitsNat
  have htw : (natStr i ++ c :: z).takeWhile isDigitCh = natStr i :=
    takeWhile_append_of_all _ _ hns.1 (by simp) hc
  simp only [htw]
  rw [if_neg hns.2.2, hns.2.1, drop_length_append]

theorem markerParse_front (i : ℕ) (z : Str) :
    markerParse (markerStr i ++ z) = some (i, z) := by
  unfold markerStr
  rw [markerParse]
  have hassoc : "[[PAGE:".data ++ natStr i ++ "]]".data ++ z =
      "[[PAGE:".data ++ (natStr i ++ (']' :: (']' :: z))) := by simp
  rw [hassoc]
  have hpre : "[[PAGE:".data.isPrefixOf
      ("[[PAGE:".data ++ (natStr i ++ (']' :: (']' :: z)))) = true :=
    (isPrefixOf_iff_exists _ _).mpr ⟨_, rfl⟩
  rw [if_pos hpre]
  have hdrop : ("[[PAGE:".data ++ (natStr i ++ (']' :: (']' :: z)))).drop 7 =
      natStr i ++ (']' :: (']' :: z)) := by
    have h7 : ("[[PAGE:".data).length = 7 := rfl
    rw [← h7, List.drop_left]
  rw [hdrop]
  rw [parseDigitsNat_natStr i ']' (']' :: z) (by decide)]
  have hp2 : "]]".data.isPrefixOf (']' :: (']' :: z)) = true := by
    refine (isPrefixOf_iff_exists _ _).mpr ⟨z, ?_⟩
    rfl
  show (if "]]".data.isPrefixOf (']' :: (']' :: z)) = true then
      some (i, (']' :: (']' :: z)).drop 2) else none) = some (i, z)
  rw [if_pos hp2]
  rfl

theorem firstPageOf_front (i : ℕ) (z : Str) :
    firstPageOf (markerStr i ++ z) = some i := by
  have hm := markerParse_front i z
  have hstr : markerStr i ++ z
      = '[' :: ('[' :: ("PAGE:".data ++ natStr i ++ "]]".data ++ z)) := by
    unfold markerStr
    simp
  rw [hstr] at hm ⊢
  rw [firstPageOf, hm]

end Chatbot

namespace Chatbot

theorem markerStr_no_ws (q : ℕ) : ∀ c ∈ markerStr q, isWs c = false := by
  intro c hc
  unfold markerStr at hc
  rcases List.mem_append.mp hc with hc1 | hc2
  · rcases List.mem_append.mp hc1 with hc3 | hc4
    · have he : "[[PAGE:".data = ['[', '[', 'P', 'A', 'G', 'E', ':'] := rfl
      rw [he] at hc3
      fin_cases hc3 <;> decide
    · exact isWs_of_digit_false c ((natStr_spec q).1 c hc4)
  · have he : "]]".data = [']', ']'] := rfl
    rw [he] at hc2
    fin_cases hc2 <;> decide

theorem dropWhile_eq_self_of {p : Char → Bool} (s : Str)
    (h : ∀ c ∈ s, p c = false) : s.dropWhile p = s := by
  cases s with
  | nil => rfl
  | cons c t =>
    rw [List.dropWhile_cons, h c (List.mem_cons_self c t)]
    simp

theorem trimStr_no_ws (s : Str) (h : ∀ c ∈ s, isWs c = false) :
    trimStr s = s := by
  unfold trimStr
  rw [dropWhile_eq_self_of s h]
  rw [dropWhile_eq_self_of s.reverse (by intro c hc; exact h c (List.mem_reverse.mp hc))]
  exact List.reverse_reverse s

theorem headerTitleOf_markerStr (q : ℕ) : headerTitleOf (markerStr q) = none := by
  have htr : trimStr (markerStr q) = markerStr q :=
    trimStr_no_ws _ (markerStr_no_ws q)
  have hbm : isBareMarker (markerStr q) = true := by
    unfold isBareMarker
    have hmp := markerParse_front q []
    rw [List.append_nil] at hmp
    rw [hmp]
    rfl
  have hcp : contentPat (markerStr q) = true := by
    unfold contentPat
    rw [hbm]
    simp
  unfold headerTitleOf isLikelyHeader
  simp [htr, hcp]

end Chatbot

namespace Chatbot

/-- The trim-and-drop-empties post-processing of the block splitter. -/
def trimFilter (l : List Str) : List Str :=
  (l.map trimStr).filter (fun b => decide (b ≠ []))

theorem trimFilter_cons (a : Str) (l : List Str) :
    trimFilter (a :: l) =
      (if trimStr a = [] then [] else [trimStr a]) ++ trimFilter l := by
  unfold trimFilter
  rw [List.map_cons, List.filter_cons]
  by_cases h : trimStr a = []
  · simp [h]
  · simp [h]

theorem dropWhile_append_all {p : Char → Bool} (a b : Str)
    (h : ∀ x ∈ a, p x = true) : (a ++ b).dropWhile p = b.dropWhile p := by
  induction a with
  | nil => rfl
  | cons x a2 ih =>
    rw [List.cons_append, List.dropWhile_cons, h x (List.mem_cons_self x a2)]
    exact ih (fun y hy => h y (List.mem_cons_of_mem x hy))

theorem dropWhile_append_of_ne_nil {p : Char → Bool} (a b : Str)
    (h : a.dropWhile p ≠ []) : (a ++ b).dropWhile p = a.dropWhile p ++ b := by
  induction a with
  | nil => exact absurd rfl h
  | cons x a2 ih =>
    rw [List.cons_append, List.dropWhile_cons, List.dropWhile_cons]
    rw [List.dropWhile_cons] at h
    cases hp : p x with
    | true =>
      rw [hp] at h
      rw [if_pos rfl] at h
      rw [if_pos rfl, if_pos rfl]
      exact ih h
    | false =>
      simp

theorem trimStr_cons_ws (c : Char) (s : Str) (hc : isWs c = true) :
    trimStr (c :: s) = trimStr s := by
  unfold trimStr
  rw [List.dropWhile_cons, hc]
  simp

theorem trimStr_append_ws (s : Str) (c : Char) (hc : isWs c = true) :
    trimStr (s ++ [c]) = trimStr s := by
  by_cases hd : s.dropWhile isWs = []
  · have hall : ∀ x ∈ s, isWs x = true := by
      intro x hx
      exact List.dropWhile_eq_nil_iff.mp hd x hx
    unfold trimStr
    rw [dropWhile_append_all s [c] hall, hd]
    rw [List.dropWhile_cons, hc]
    rfl
  · unfold trimStr
    rw [dropWhile_append_of_ne_nil s [c] hd]
    rw [List.reverse_append]
    show (List.dropWhile isWs (c :: (s.dropWhile isWs).reverse)).reverse = _
    rw [List.dropWhile_cons, hc]
    simp

theorem sbGo_trim_congr (u : Str) :
    ∀ a b : Str,
      (∀ z, trimStr (a.reverse ++ z) = trimStr (b.reverse ++ z)) →
      trimFilter (sbGo 0 a u) = trimFilter (sbGo 0 b u) ∧
      trimFilter (sbGo 1 a u) = trimFilter (sbGo 1 b u) := by
  induction u with
  | nil =>
    intro a b hR
    have h0 := hR []
    rw [List.append_nil, List.append_nil] at h0
    constructor
    · show trimFilter [a.reverse] = trimFilter [b.reverse]
      rw [trimFilter_cons, trimFilter_cons, h0]
    · show trimFilter [('\n' :: a).reverse] = trimFilter [('\n' :: b).reverse]
      have h1 := hR ['\n']
      rw [trimFilter_cons, trimFilter_cons, List.reverse_cons, List.reverse_cons, h1]
  | cons c t ih =>
    intro a b hR
    by_cases hc : c = '\n'
    · subst hc
      constructor
      · show trimFilter (if ('\n' : Char) = '\n' then sbGo 1 a t else sbGo 0 ('\n' :: a) t)
            = trimFilter (if ('\n' : Char) = '\n' then sbGo 1 b t else sbGo 0 ('\n' :: b) t)
        rw [if_pos rfl, if_pos rfl]
        exact (ih a b hR).2
      · show trimFilter (if ('\n' : Char) = '\n' then a.reverse :: sbGo 2 [] t
              else sbGo 0 ('\n' :: '\n' :: a) t)
            = trimFilter (if ('\n' : Char) = '\n' then b.reverse :: sbGo 2 [] t
              else sbGo 0 ('\n' :: '\n' :: b) t)
        rw [if_pos rfl, if_pos rfl, trimFilter_cons, trimFilter_cons]
        have h0 := hR []
        rw [List.append_nil, List.append_nil] at h0
        rw [h0]
    · constructor
      · show trimFilter (if c = '\n' then sbGo 1 a t else sbGo 0 (c :: a) t)
            = trimFilter (if c = '\n' then sbGo 1 b t else sbGo 0 (c :: b) t)
        rw [if_neg hc, if_neg hc]
        refine (ih (c :: a) (c :: b) ?_).1
        intro z
        rw [List.reverse_cons, List.reverse_cons, List.append_assoc, List.append_assoc]
        exact hR (c :: z)
      · show trimFilter (if c = '\n' then a.reverse :: sbGo 2 [] t
              else sbGo 0 (c :: '\n' :: a) t)
            = trimFilter (if c = '\n' then b.reverse :: sbGo 2 [] t
              else sbGo 0 (c :: '\n' :: b) t)
        rw [if_neg hc, if_neg hc]
        refine (ih (c :: '\n' :: a) (c :: '\n' :: b) ?_).1
        intro z
        have ha : (c :: '\n' :: a).reverse ++ z = a.reverse ++ ('\n' :: c :: z) := by
          simp
        have hb : (c :: '\n' :: b).reverse ++ z = b.reverse ++ ('\n' :: c :: z) := by
          simp
        rw [ha, hb]
        exact hR ('\n' :: c :: z)

end Chatbot

namespace Chatbot

theorem sbGo_sep_modes (t : Str) :
    trimFilter (sbGo 2 [] t) = trimFilter (sbGo 0 [] t) ∧
    trimFilter (sbGo 1 [] t) = trimFilter (sbGo 0 [] t) := by
  induction t with
  | nil => exact ⟨rfl, rfl⟩
  | cons c t ih =>
    by_cases hc : c = '\n'
    · subst hc
      constructor
      · show trimFilter (if ('\n' : Char) = '\n' then sbGo 2 [] t else sbGo 0 ['\n'] t)
            = trimFilter (if ('\n' : Char) = '\n' then sbGo 1 [] t else sbGo 0 ['\n'] t)
        rw [if_pos rfl, if_pos rfl, ih.1, ih.2]
      · show trimFilter (if ('\n' : Char) = '\n' then List.reverse [] :: sbGo 2 [] t
              else sbGo 0 ['\n', '\n'] t)
            = trimFilter (if ('\n' : Char) = '\n' then sbGo 1 [] t else sbGo 0 ['\n'] t)
        rw [if_pos rfl, if_pos rfl, trimFilter_cons]
        show (if trimStr [] = [] then [] else [trimStr []]) ++ trimFilter (sbGo 2 [] t)
            = trimFilter (sbGo 1 [] t)
        rw [if_pos (show trimStr ([] : Str) = [] from rfl), List.nil_append, ih.1, ih.2]
    · constructor
      · show trimFilter (if c = '\n' then sbGo 2 [] t else sbGo 0 [c] t)
            = trimFilter (if c = '\n' then sbGo 1 [] t else sbGo 0 [c] t)
        rw [if_neg hc, if_neg hc]
      · show trimFilter (if c = '\n' then List.reverse [] :: sbGo 2 [] t
              else sbGo 0 [c, '\n'] t)
            = trimFilter (if c = '\n' then sbGo 1 [] t else sbGo 0 [c] t)
        rw [if_neg hc, if_neg hc]
        refine (sbGo_trim_congr t [c, '\n'] [c] ?_).1
        intro z
        show trimStr ('\n' :: c :: z) = trimStr (c :: z)
        exact trimStr_cons_ws '\n' (c :: z) (by decide)

theorem sbGo_append_sep (Y : Str) : ∀ (X : Str) (acc : Str),
    trimFilter (sbGo 0 acc (X ++ '\n' :: '\n' :: Y)) =
      trimFilter (sbGo 0 acc X) ++ trimFilter (sbGo 0 [] Y) ∧
    trimFilter (sbGo 1 acc (X ++ '\n' :: '\n' :: Y)) =
      trimFilter (sbGo 1 acc X) ++ trimFilter (sbGo 0 [] Y) ∧
    trimFilter (sbGo 2 acc (X ++ '\n' :: '\n' :: Y)) =
      trimFilter (sbGo 2 acc X) ++ trimFilter (sbGo 0 [] Y) := by
  intro X
  induction X with
  | nil =>
    intro acc
    refine ⟨?_, ?_, ?_⟩
    · show trimFilter (if ('\n' : Char) = '\n' then sbGo 1 acc ('\n' :: Y)
            else sbGo 0 ('\n' :: acc) ('\n' :: Y))
          = trimFilter [acc.reverse] ++ trimFilter (sbGo 0 [] Y)
      rw [if_pos rfl]
      show trimFilter (if ('\n' : Char) = '\n' then acc.reverse :: sbGo 2 [] Y
            else sbGo 0 ('\n' :: '\n' :: acc) Y)
          = trimFilter [acc.reverse] ++ trimFilter (sbGo 0 [] Y)
      rw [if_pos rfl, trimFilter_cons, trimFilter_cons, (sbGo_sep_modes Y).1]
      simp
      rfl
    · show trimFilter (if ('\n' : Char) = '\n' then acc.reverse :: sbGo 2 [] ('\n' :: Y)
            else sbGo 0 ('\n' :: '\n' :: acc) ('\n' :: Y))
          = trimFilter [('\n' :: acc).reverse] ++ trimFilter (sbGo 0 [] Y)
      rw [if_pos rfl]
      show trimFilter (acc.reverse :: (if ('\n' : Char) = '\n' then sbGo 2 [] Y
            else sbGo 0 ['\n'] Y))
          = trimFilter [('\n' :: acc).reverse] ++ trimFilter (sbGo 0 [] Y)
      rw [if_pos rfl, trimFilter_cons, trimFilter_cons, (sbGo_sep_modes Y).1]
      rw [List.reverse_cons, trimStr_append_ws acc.reverse '\n' (by decide)]
      simp
      rfl
    · show trimFilter (if ('\n' : Char) = '\n' then sbGo 2 [] ('\n' :: Y)
            else sbGo 0 ['\n'] ('\n' :: Y))
          = trimFilter [[]] ++ trimFilter (sbGo 0 [] Y)
      rw [if_pos rfl]
      show trimFilter (if ('\n' : Char) = '\n' then sbGo 2 [] Y else sbGo 0 ['\n'] Y)
          = trimFilter [[]] ++ trimFilter (sbGo 0 [] Y)
      rw [if_pos rfl, (sbGo_sep_modes Y).1]
      rfl
  | cons c X2 ih =>
    intro acc
    by_cases hc : c = '\n'
    · subst hc
      refine ⟨?_, ?_, ?_⟩
      · show trimFilter (if ('\n' : Char) = '\n'
              then sbGo 1 acc (X2 ++ '\n' :: '\n' :: Y)
              else sbGo 0 ('\n' :: acc) (X2 ++ '\n' :: '\n' :: Y))
            = trimFilter (if ('\n' : Char) = '\n' then sbGo 1 acc X2
              else sbGo 0 ('\n' :: acc) X2) ++ trimFilter (sbGo 0 [] Y)
        rw [if_pos rfl, if_pos rfl]
        exact (ih acc).2.1
      · show trimFilter (if ('\n' : Char) = '\n'
              then acc.reverse :: sbGo 2 [] (X2 ++ '\n' :: '\n' :: Y)
              else sbGo 0 ('\n' :: '\n' :: acc) (X2 ++ '\n' :: '\n' :: Y))
            = trimFilter (if ('\n' : Char) = '\n' then acc.reverse :: sbGo 2 [] X2
              else sbGo 0 ('\n' :: '\n' :: acc) X2) ++ trimFilter (sbGo 0 [] Y)
        rw [if_pos rfl, if_pos rfl, trimFilter_cons, trimFilter_cons, (ih []).2.2]
        rw [List.append_assoc]
      · show trimFilter (if ('\n' : Char) = '\n'
              then sbGo 2 [] (X2 ++ '\n' :: '\n' :: Y)
              else sbGo 0 [] (X2 ++ '\n' :: '\n' :: Y))
            = trimFilter (if ('\n' : Char) = '\n' then sbGo 2 [] X2
              else sbGo 0 [] X2) ++ trimFilter (sbGo 0 [] Y)
        rw [if_pos rfl, if_pos rfl]
        exact (ih []).2.2
    · refine ⟨?_, ?_, ?_⟩
      · show trimFilter (if c = '\n' then sbGo 1 acc (X2 ++ '\n' :: '\n' :: Y)
              else sbGo 0 (c :: acc) (X2 ++ '\n' :: '\n' :: Y))
            = trimFilter (if c = '\n' then sbGo 1 acc X2
              else sbGo 0 (c :: acc) X2) ++ trimFilter (sbGo 0 [] Y)
        rw [if_neg hc, if_neg hc]
        exact (ih (c :: acc)).1
      · show trimFilter (if c = '\n'
              then acc.reverse :: sbGo 2 [] (X2 ++ '\n' :: '\n' :: Y)
              else sbGo 0 (c :: '\n' :: acc) (X2 ++ '\n' :: '\n' :: Y))
            = trimFilter (if c = '\n' then acc.reverse :: sbGo 2 [] X2
              else sbGo 0 (c :: '\n' :: acc) X2) ++ trimFilter (sbGo 0 [] Y)
        rw [if_neg hc, if_neg hc]
        exact (ih (c :: '\n' :: acc)).1
      · show trimFilter (if c = '\n' then sbGo 2 [] (X2 ++ '\n' :: '\n' :: Y)
              else sbGo 0 [c] (X2 ++ '\n' :: '\n' :: Y))
            = trimFilter (if c = '\n' then sbGo 2 [] X2
              else sbGo 0 [c] X2) ++ trimFilter (sbGo 0 [] Y)
        rw [if_neg hc, if_neg hc]
        exact (ih [c]).1

theorem blocksTF_append (X Y : Str) :
    blocksTF (X ++ '\n' :: '\n' :: Y) = blocksTF X ++ blocksTF Y :=
  (sbGo_append_sep Y X []).1

end Chatbot

namespace Chatbot

theorem blocksTF_intercalate : ∀ l : List Str,
    blocksTF (List.intercalate "\n\n".data l) = (l.map blocksTF).flatten := by
  intro l
  induction l with
  | nil => rfl
  | cons a r ih =>
    cases r with
    | nil => simp [List.intercalate]
    | cons b r2 =>
      have hstep : List.intercalate "\n\n".data (a :: b :: r2)
          = a ++ '\n' :: '\n' :: List.intercalate "\n\n".data (b :: r2) := by
        show (List.intersperse "\n\n".data (a :: b :: r2)).flatten = _
        rw [List.intersperse_cons_cons]
        rfl
      rw [hstep, blocksTF_append, ih]
      rfl

theorem sbGo_modifyHead (t : Str) :
    ∀ acc : Str,
      sbGo 0 acc t = (sbGo 0 [] t).modifyHead (acc.reverse ++ ·) ∧
      sbGo 1 acc t = (sbGo 1 [] t).modifyHead (acc.reverse ++ ·) := by
  induction t with
  | nil =>
    intro acc
    constructor
    · show [acc.reverse] = [acc.reverse ++ List.reverse []]
      simp
    · show [('\n' :: acc).reverse] = [acc.reverse ++ ('\n' :: ([] : Str)).reverse]
      simp
  | cons c t ih =>
    intro acc
    by_cases hc : c = '\n'
    · subst hc
      constructor
      · show sbGo 1 acc t = (sbGo 1 [] t).modifyHead (acc.reverse ++ ·)
        exact (ih acc).2
      · show acc.reverse :: sbGo 2 [] t
            = (List.reverse [] :: sbGo 2 [] t).modifyHead (acc.reverse ++ ·)
        simp
    · constructor
      · show (if c = '\n' then sbGo 1 acc t else sbGo 0 (c :: acc) t)
            = (if c = '\n' then sbGo 1 [] t else sbGo 0 [c] t).modifyHead (acc.reverse ++ ·)
        rw [if_neg hc, if_neg hc, (ih (c :: acc)).1, (ih [c]).1]
        rw [List.modifyHead_modifyHead]
        congr 1
        funext x
        simp
      · show (if c = '\n' then acc.reverse :: sbGo 2 [] t
              else sbGo 0 (c :: '\n' :: acc) t)
            = (if c = '\n' then List.reverse [] :: sbGo 2 [] t
               else sbGo 0 [c, '\n'] t).modifyHead (acc.reverse ++ ·)
        rw [if_neg hc, if_neg hc, (ih (c :: '\n' :: acc)).1, (ih [c, '\n']).1]
        rw [List.modifyHead_modifyHead]
        congr 1
        funext x
        simp

theorem sbGo_ne_nil (t : Str) :
    ∀ acc : Str, sbGo 0 acc t ≠ [] ∧ sbGo 1 acc t ≠ [] ∧ sbGo 2 acc t ≠ [] := by
  induction t with
  | nil =>
    intro acc
    exact ⟨by simp [sbGo], by simp [sbGo], by simp [sbGo]⟩
  | cons c t ih =>
    intro acc
    by_cases hc : c = '\n'
    · subst hc
      refine ⟨?_, ?_, ?_⟩
      · show sbGo 1 acc t ≠ []
        exact (ih acc).2.1
      · show acc.reverse :: sbGo 2 [] t ≠ []
        simp
      · show sbGo 2 [] t ≠ []
        exact (ih []).2.2
    · refine ⟨?_, ?_, ?_⟩
      · show (if c = '\n' then sbGo 1 acc t else sbGo 0 (c :: acc) t) ≠ []
        rw [if_neg hc]
        exact (ih (c :: acc)).1
      · show (if c = '\n' then acc.reverse :: sbGo 2 [] t
             else sbGo 0 (c :: '\n' :: acc) t) ≠ []
        rw [if_neg hc]
        exact (ih (c :: '\n' :: acc)).1
      · show (if c = '\n' then sbGo 2 [] t else sbGo 0 [c] t) ≠ []
        rw [if_neg hc]
        exact (ih [c]).1

end Chatbot

namespace Chatbot

theorem sbGo_head_pref (t : Str) :
    ∀ acc : Str,
      (∃ u rest, u <+: t ∧ sbGo 0 acc t = (acc.reverse ++ u) :: rest) ∧
      (∃ u rest, u <+: ('\n' :: t) ∧ sbGo 1 acc t = (acc.reverse ++ u) :: rest) := by
  induction t with
  | nil =>
    intro acc
    constructor
    · exact ⟨[], [], List.nil_prefix, by simp [sbGo]⟩
    · refine ⟨['\n'], [], List.prefix_refl _, ?_⟩
      show [('\n' :: acc).reverse] = (acc.reverse ++ ['\n']) :: []
      simp
  | cons c t ih =>
    intro acc
    by_cases hc : c = '\n'
    · subst hc
      constructor
      · rcases (ih acc).2 with ⟨u, rest, hu, heq⟩
        exact ⟨u, rest, hu, heq⟩
      · refine ⟨[], sbGo 2 [] t, List.nil_prefix, ?_⟩
        show acc.reverse :: sbGo 2 [] t = (acc.reverse ++ []) :: sbGo 2 [] t
        simp
    · constructor
      · rcases (ih (c :: acc)).1 with ⟨u, rest, hu, heq⟩
        refine ⟨c :: u, rest, List.cons_prefix_cons.mpr ⟨rfl, hu⟩, ?_⟩
        show (if c = '\n' then sbGo 1 acc t else sbGo 0 (c :: acc) t)
            = (acc.reverse ++ c :: u) :: rest
        rw [if_neg hc, heq]
        simp
      · rcases (ih (c :: '\n' :: acc)).1 with ⟨u, rest, hu, heq⟩
        refine ⟨'\n' :: c :: u, rest,
          List.cons_prefix_cons.mpr ⟨rfl, List.cons_prefix_cons.mpr ⟨rfl, hu⟩⟩, ?_⟩
        show (if c = '\n' then acc.reverse :: sbGo 2 [] t
              else sbGo 0 (c :: '\n' :: acc) t)
            = (acc.reverse ++ '\n' :: c :: u) :: rest
        rw [if_neg hc, heq]
        simp

theorem sbGo_pieces_inf (t : Str) :
    ∀ acc : Str,
      (∀ x ∈ (sbGo 0 acc t).tail, x <:+: t) ∧
      (∀ x ∈ (sbGo 1 acc t).tail, x <:+: t) ∧
      (∀ x ∈ sbGo 2 acc t, x <:+: t) := by
  induction t with
  | nil =>
    intro acc
    refine ⟨?_, ?_, ?_⟩
    · show ∀ x ∈ ([acc.reverse] : List Str).tail, x <:+: []
      simp
    · show ∀ x ∈ ([('\n' :: acc).reverse] : List Str).tail, x <:+: []
      simp
    · show ∀ x ∈ ([[]] : List Str), x <:+: []
      simp
  | cons c t ih =>
    intro acc
    by_cases hc : c = '\n'
    · subst hc
      refine ⟨?_, ?_, ?_⟩
      · show ∀ x ∈ (sbGo 1 acc t).tail, x <:+: '\n' :: t
        intro x hx
        exact List.infix_cons ((ih acc).2.1 x hx)
      · show ∀ x ∈ (acc.reverse :: sbGo 2 [] t).tail, x <:+: '\n' :: t
        intro x hx
        exact List.infix_cons ((ih []).2.2 x hx)
      · show ∀ x ∈ sbGo 2 [] t, x <:+: '\n' :: t
        intro x hx
        exact List.infix_cons ((ih []).2.2 x hx)
    · refine ⟨?_, ?_, ?_⟩
      · show ∀ x ∈ ((if c = '\n' then sbGo 1 acc t else sbGo 0 (c :: acc) t)).tail,
            x <:+: c :: t
        rw [if_neg hc]
        intro x hx
        exact List.infix_cons ((ih (c :: acc)).1 x hx)
      · show ∀ x ∈ ((if c = '\n' then acc.reverse :: sbGo 2 [] t
              else sbGo 0 (c :: '\n' :: acc) t)).tail, x <:+: c :: t
        rw [if_neg hc]
        intro x hx
        exact List.infix_cons ((ih (c :: '\n' :: acc)).1 x hx)
      · show ∀ x ∈ (if c = '\n' then sbGo 2 [] t else sbGo 0 [c] t), x <:+: c :: t
        rw [if_neg hc]
        intro x hx
        rcases (sbGo_head_pref t [c]).1 with ⟨u, rest, hu, heq⟩
        rw [heq] at hx
        rcases List.mem_cons.mp hx with hx1 | hx2
        · rw [hx1]
          show [c].reverse ++ u <:+: c :: t
          refine List.IsPrefix.isInfix ?_
          show c :: u <+: c :: t
          exact List.cons_prefix_cons.mpr ⟨rfl, hu⟩
        · have hxtail : x ∈ (sbGo 0 [c] t).tail := by
            rw [heq]
            exact hx2
          exact List.infix_cons ((ih [c]).1 x hxtail)

theorem sbGo_consume (m : Str) (hm : ∀ c ∈ m, c ≠ '\n') :
    ∀ (acc r : Str), sbGo 0 acc (m ++ r) = sbGo 0 (m.reverse ++ acc) r := by
  induction m with
  | nil =>
    intro acc r
    simp
  | cons c m2 ih =>
    intro acc r
    have hc : c ≠ '\n' := hm c (List.mem_cons_self c m2)
    show (if c = '\n' then sbGo 1 acc (m2 ++ r) else sbGo 0 (c :: acc) (m2 ++ r))
        = sbGo 0 ((c :: m2).reverse ++ acc) r
    rw [if_neg hc, ih (fun x hx => hm x (List.mem_cons_of_mem c hx)) (c :: acc) r]
    congr 1
    simp

end Chatbot

namespace Chatbot

/-- JavaScript right trim, as used to reason about `trim` on marker-headed
blocks. -/
def rtrimStr (s : Str) : Str := (s.reverse.dropWhile isWs).reverse

theorem rtrimStr_pref (s : Str) : rtrimStr s <+: s := by
  unfold rtrimStr
  have hsuf : s.reverse.dropWhile isWs <:+ s.reverse := List.dropWhile_suffix isWs
  have := List.reverse_prefix.mpr hsuf
  rwa [List.reverse_reverse] at this

theorem trimStr_eq_rtrim_drop (s : Str) :
    trimStr s = rtrimStr (s.dropWhile isWs) := rfl

theorem trimStr_inf (s : Str) : trimStr s <:+: s := by
  rw [trimStr_eq_rtrim_drop]
  exact ((rtrimStr_pref (s.dropWhile isWs)).isInfix).trans
    (List.dropWhile_suffix isWs).isInfix

theorem trimStr_marker_head (mk h : Str) (c0 : Char) (m2 : Str)
    (hmk : mk = c0 :: m2) (hall : ∀ c ∈ mk, isWs c = false) :
    trimStr (mk ++ h) = mk ++ rtrimStr h := by
  unfold trimStr
  have hdrop : (mk ++ h).dropWhile isWs = mk ++ h := by
    rw [hmk, List.cons_append, List.dropWhile_cons,
      hall c0 (by rw [hmk]; exact List.mem_cons_self c0 m2)]
    simp
  rw [hdrop, List.reverse_append]
  have hrevne : mk.reverse ≠ [] := by
    rw [hmk]
    simp
  have hhead : isWs (mk.reverse.headD ' ') = false := by
    cases hrv : mk.reverse with
    | nil => exact absurd hrv hrevne
    | cons y ys =>
      have hy : y ∈ mk.reverse := by rw [hrv]; exact List.mem_cons_self y ys
      exact hall y (List.mem_reverse.mp hy)
  rw [dropWhile_append_of_head h.reverse mk.reverse hrevne hhead]
  rw [List.reverse_append, List.reverse_reverse]
  rfl

theorem scGo_no_sep (sep : Char) (m : Str) (hm : ∀ c ∈ m, c ≠ sep) :
    ∀ acc, scGo sep acc m = [acc.reverse ++ m] := by
  induction m with
  | nil =>
    intro acc
    simp [scGo]
  | cons c m2 ih =>
    intro acc
    have hc : c ≠ sep := hm c (List.mem_cons_self c m2)
    show (if c = sep then acc.reverse :: scGo sep [] m2 else scGo sep (c :: acc) m2)
        = [acc.reverse ++ c :: m2]
    rw [if_neg hc, ih (fun x hx => hm x (List.mem_cons_of_mem c hx)) (c :: acc)]
    simp

theorem scGo_sep_split (sep : Char) (m : Str) (hm : ∀ c ∈ m, c ≠ sep) (r : Str) :
    ∀ acc, scGo sep acc (m ++ sep :: r) = (acc.reverse ++ m) :: scGo sep [] r := by
  induction m with
  | nil =>
    intro acc
    show (if sep = sep then acc.reverse :: scGo sep [] r else scGo sep (sep :: acc) r)
        = (acc.reverse ++ []) :: scGo sep [] r
    rw [if_pos rfl]
    simp
  | cons c m2 ih =>
    intro acc
    have hc : c ≠ sep := hm c (List.mem_cons_self c m2)
    show (if c = sep then acc.reverse :: scGo sep [] (m2 ++ sep :: r)
          else scGo sep (c :: acc) (m2 ++ sep :: r))
        = (acc.reverse ++ c :: m2) :: scGo sep [] r
    rw [if_neg hc, ih (fun x hx => hm x (List.mem_cons_of_mem c hx)) (c :: acc)]
    simp

end Chatbot

namespace Chatbot

theorem markerStr_cons (q : ℕ) :
    markerStr q = '[' :: ('[' :: ("PAGE:".data ++ natStr q ++ "]]".data)) := by
  unfold markerStr
  simp

theorem markerStr_no_nl (q : ℕ) : ∀ c ∈ markerStr q, c ≠ '\n' := by
  intro c hc hceq
  have hw := markerStr_no_ws q c hc
  rw [hceq] at hw
  exact absurd hw (by decide)

theorem linesOf_marker_head (q : ℕ) (w : Str)
    (hw : w = [] ∨ ∃ w2, w = '\n' :: w2) :
    (linesOf (markerStr q ++ w)).headD [] = markerStr q := by
  have hnl := markerStr_no_nl q
  have htr : trimStr (markerStr q) = markerStr q :=
    trimStr_no_ws _ (markerStr_no_ws q)
  have hne : markerStr q ≠ [] := by rw [markerStr_cons]; simp
  rcases hw with hw0 | ⟨w2, hw2⟩
  · subst hw0
    unfold linesOf
    rw [List.append_nil, scGo_no_sep '\n' (markerStr q) hnl []]
    rw [List.filter_cons]
    simp only [List.reverse_nil, List.nil_append]
    have : decide (trimStr (markerStr q) ≠ []) = true := by
      rw [htr]
      simpa using hne
    rw [if_pos this]
    rfl
  · subst hw2
    unfold linesOf
    rw [scGo_sep_split '\n' (markerStr q) hnl w2 []]
    rw [List.filter_cons]
    simp only [List.reverse_nil, List.nil_append]
    have : decide (trimStr (markerStr q) ≠ []) = true := by
      rw [htr]
      simpa using hne
    rw [if_pos this]
    rfl

theorem chunk_blocks_ok (q : ℕ) (t : Str) (ht : pfree t) :
    ∀ b ∈ blocksTF (markerStr q ++ '\n' :: t),
      firstPageOf b = none ∨
        (firstPageOf b = some q ∧
         headerTitleOf (trimStr ((linesOf b).headD [])) = none) := by
  intro b hb
  have hmknw : ∀ c ∈ markerStr q, isWs c = false := markerStr_no_ws q
  have hmknn : ∀ c ∈ markerStr q, c ≠ '\n' := markerStr_no_nl q
  obtain ⟨h1, T, hT⟩ : ∃ h1 T, sbGo 1 [] t = h1 :: T := by
    cases hv : sbGo 1 [] t with
    | nil => exact absurd hv ((sbGo_ne_nil t []).2.1)
    | cons a l => exact ⟨a, l, rfl⟩
  have hsplit : splitBlanks (markerStr q ++ '\n' :: t)
      = ((markerStr q) ++ h1) :: T := by
    unfold splitBlanks
    rw [sbGo_consume (markerStr q) hmknn [] ('\n' :: t), List.append_nil]
    have hstep : sbGo 0 (markerStr q).reverse ('\n' :: t)
        = sbGo 1 (markerStr q).reverse t := by
      show (if ('\n' : Char) = '\n' then sbGo 1 (markerStr q).reverse t
            else sbGo 0 ('\n' :: (markerStr q).reverse) t)
          = sbGo 1 (markerStr q).reverse t
      rw [if_pos rfl]
    rw [hstep]
    have h2 := (sbGo_modifyHead t (markerStr q).reverse).2
    rw [List.reverse_reverse] at h2
    rw [h2, hT, List.modifyHead_cons]
  have hh1pre : h1 <+: '\n' :: t := by
    rcases (sbGo_head_pref t []).2 with ⟨u, rest, hu, heq⟩
    rw [hT] at heq
    have : h1 = List.reverse [] ++ u := (List.cons.injEq _ _ _ _ ▸ heq).1
    rw [this]
    simpa using hu
  have hbtf : blocksTF (markerStr q ++ '\n' :: t)
      = trimStr (markerStr q ++ h1) :: trimFilter T := by
    show trimFilter (splitBlanks (markerStr q ++ '\n' :: t)) = _
    rw [hsplit, trimFilter_cons]
    have htm : trimStr (markerStr q ++ h1) = markerStr q ++ rtrimStr h1 :=
      trimStr_marker_head (markerStr q) h1 '['
        ('[' :: ("PAGE:".data ++ natStr q ++ "]]".data)) (markerStr_cons q) hmknw
    have hne : trimStr (markerStr q ++ h1) ≠ [] := by
      rw [htm, markerStr_cons]
      simp
    rw [if_neg hne]
    rfl
  rw [hbtf] at hb
  rcases List.mem_cons.mp hb with hb1 | hb2
  · right
    have htm : trimStr (markerStr q ++ h1) = markerStr q ++ rtrimStr h1 :=
      trimStr_marker_head (markerStr q) h1 '['
        ('[' :: ("PAGE:".data ++ natStr q ++ "]]".data)) (markerStr_cons q) hmknw
    rw [hb1, htm]
    have hwshape : rtrimStr h1 = [] ∨ ∃ w2, rtrimStr h1 = '\n' :: w2 := by
      have hpre : rtrimStr h1 <+: '\n' :: t := (rtrimStr_pref h1).trans hh1pre
      cases hv : rtrimStr h1 with
      | nil => exact Or.inl rfl
      | cons y ys =>
        right
        rw [hv] at hpre
        have hy : y = '\n' := (List.cons_prefix_cons.mp hpre).1
        exact ⟨ys, by rw [hy]⟩
    constructor
    · exact firstPageOf_front q (rtrimStr h1)
    · rw [linesOf_marker_head q (rtrimStr h1) hwshape]
      rw [trimStr_no_ws _ (markerStr_no_ws q)]
      exact headerTitleOf_markerStr q
  · left
    have hmem : ∃ x ∈ T, trimStr x = b := by
      unfold trimFilter at hb2
      rcases List.mem_filter.mp hb2 with ⟨hmm, _⟩
      rcases List.mem_map.mp hmm with ⟨x, hx, hxe⟩
      exact ⟨x, hx, hxe⟩
    rcases hmem with ⟨x, hx, hxe⟩
    have hxt : x ∈ (sbGo 1 [] t).tail := by
      rw [hT]
      exact hx
    have hinf : x <:+: t := (sbGo_pieces_inf t []).2.1 x hxt
    have hpfx : pfree x := pfree_of_infix x t ht hinf
    have hpfb : pfree b := by
      rw [← hxe]
      exact pfree_of_infix _ x hpfx (trimStr_inf x)
    exact firstPageOf_eq_none_of_pfree b hpfb

end Chatbot

namespace Chatbot

/-- The per-block fact the sectioner fold needs on marker-free page texts:
either the block contains no page marker, or its first marker is the page tag
of some input page (bounded by the page count) and its first line is a bare
page marker, which header detection rejects. -/
def BlockOK (n : ℕ) (b : Str) : Prop :=
  firstPageOf b = none ∨
    ∃ q, q ≤ n ∧ firstPageOf b = some q ∧
      headerTitleOf (trimStr ((linesOf b).headD [])) = none

theorem blocks_ok (rp : List Str) (hp : ∀ t ∈ rp, pfree t) :
    ∀ b ∈ blocksOf rp, BlockOK rp.length b := by
  intro b hb
  rw [blocksOf_eq_blocksTF] at hb
  unfold pageTagged at hb
  rw [blocksTF_intercalate] at hb
  rcases List.mem_flatten.mp hb with ⟨bl, hbl, hmem⟩
  rcases List.mem_map.mp hbl with ⟨ch, hch, hcheq⟩
  rcases List.exists_of_mem_mapIdx hch with ⟨i, hi, hieq⟩
  rw [← hieq] at hcheq
  rw [← hcheq] at hmem
  have hpf : pfree rp[i] := hp rp[i] (List.getElem_mem hi)
  rcases chunk_blocks_ok (i + 1) rp[i] hpf b hmem with h1 | ⟨h2, h3⟩
  · exact Or.inl h1
  · exact Or.inr ⟨i + 1, by omega, h2, h3⟩

/-- Every emitted section with both page endpoints has them ordered. -/
def SecsOrdered (secs : List Section) : Prop :=
  ∀ s ∈ secs, ∀ a e, s.startPage = some a → s.endPage = some e → a ≤ e

/-- The open section, when it has a start page, starts within the document. -/
def CurBounded (n : ℕ) (cur : Option CurSec) : Prop :=
  ∀ c, cur = some c → ∀ p, c.startPage = some p → p ≤ n

theorem flushSec_none (src : Str) (st : SectState) (ep : Option ℕ)
    (hcur : st.cur = none) : flushSec src st ep = st := by
  unfold flushSec
  rw [hcur]

theorem flushSec_some (src : Str) (st : SectState) (ep : Option ℕ) (c : CurSec)
    (hcur : st.cur = some c) :
    flushSec src st ep =
      (if 50 < (cleanTextContent (List.intercalate "\n\n".data c.text)).length then
        { st with
          secs := st.secs ++
            [{ id := natStr st.nextId, sourceId := src, title := c.title,
               startPage := c.startPage, endPage := ep,
               text := cleanTextContent (List.intercalate "\n\n".data c.text),
               tokensEstimated := estimateTokens
                 (cleanTextContent (List.intercalate "\n\n".data c.text)) }],
          cur := none, nextId := st.nextId + 1 }
      else { st with cur := none }) := by
  unfold flushSec
  rw [hcur]

theorem flushSec_mem (src : Str) (st : SectState) (ep : Option ℕ) (s : Section)
    (hs : s ∈ (flushSec src st ep).secs) :
    s ∈ st.secs ∨ ∃ c, st.cur = some c ∧ s.startPage = c.startPage ∧ s.endPage = ep := by
  cases hcur : st.cur with
  | none =>
    rw [flushSec_none src st ep hcur] at hs
    exact Or.inl hs
  | some c =>
    rw [flushSec_some src st ep c hcur] at hs
    by_cases h50 : 50 < (cleanTextContent (List.intercalate "\n\n".data c.text)).length
    · rw [if_pos h50] at hs
      rcases List.mem_append.mp hs with hm1 | hm2
      · exact Or.inl hm1
      · rw [List.mem_singleton] at hm2
        rw [hm2]
        exact Or.inr ⟨c, rfl, rfl, rfl⟩
    · rw [if_neg h50] at hs
      exact Or.inl hs

theorem stepBlock_skip (src : Str) (st : SectState) (b : Str)
    (hl : linesOf b = []) : stepBlock src st b = st := by
  unfold stepBlock
  rw [if_pos hl]

theorem stepBlock_header (src : Str) (st : SectState) (b : Str) (title : Str)
    (hl : linesOf b ≠ [])
    (hhd : headerTitleOf (trimStr ((linesOf b).headD [])) = some title) :
    stepBlock src st b =
      { flushSec src st (endFromMarker (firstPageOf b)) with
        cur := some { title := title, startPage := firstPageOf b, text := [b] } } := by
  unfold stepBlock
  rw [if_neg hl, hhd]

theorem stepBlock_auto (src : Str) (st : SectState) (b : Str)
    (hl : linesOf b ≠ [])
    (hhd : headerTitleOf (trimStr ((linesOf b).headD [])) = none)
    (hcur : st.cur = none) :
    stepBlock src st b =
      { st with
        cur := some { title := "Section ".data ++ natStr st.autoIndex,
                      startPage := some ((firstPageOf b).getD 1), text := [b] },
        autoIndex := st.autoIndex + 1 } := by
  unfold stepBlock
  rw [if_neg hl, hhd, hcur]

theorem stepBlock_grow (src : Str) (st : SectState) (b : Str) (c : CurSec)
    (hl : linesOf b ≠ [])
    (hhd : headerTitleOf (trimStr ((linesOf b).headD [])) = none)
    (hcur : st.cur = some c) :
    stepBlock src st b =
      { st with cur := some { c with text := c.text ++ [b] } } := by
  unfold stepBlock
  rw [if_neg hl, hhd, hcur]

theorem stepBlock_inv (src : Str) (n : ℕ) (st : SectState) (b : Str)
    (hn : 1 ≤ n) (hb : BlockOK n b)
    (hs : SecsOrdered st.secs) (hc : CurBounded n st.cur) :
    SecsOrdered (stepBlock src st b).secs ∧
      CurBounded n (stepBlock src st b).cur := by
  by_cases hl : linesOf b = []
  · rw [stepBlock_skip src st b hl]
    exact ⟨hs, hc⟩
  · rcases hb with hb1 | ⟨q, hq, hfp, hht⟩
    · cases hhd : headerTitleOf (trimStr ((linesOf b).headD [])) with
      | some title =>
        rw [stepBlock_header src st b title hl hhd]
        constructor
        · intro s hsmem a e hsa hse
          have hsm2 : s ∈ (flushSec src st (endFromMarker (firstPageOf b))).secs := hsmem
          rcases flushSec_mem src st _ s hsm2 with hm1 | ⟨c, _, _, hce⟩
          · exact hs s hm1 a e hsa hse
          · rw [hce] at hse
            rw [hb1] at hse
            exact absurd hse (by simp [endFromMarker])
        · intro c hcr p hp
          have hceq := Option.some.inj hcr
          rw [← hceq] at hp
          have hp2 : firstPageOf b = some p := hp
          rw [hb1] at hp2
          exact absurd hp2 (by simp)
      | none =>
        cases hcur : st.cur with
        | none =>
          rw [stepBlock_auto src st b hl hhd hcur]
          refine ⟨hs, ?_⟩
          intro c hcr p hp
          have hceq := Option.some.inj hcr
          rw [← hceq] at hp
          have hp2 : some ((firstPageOf b).getD 1) = some p := hp
          rw [hb1] at hp2
          simp only [Option.getD_none, Option.some.injEq] at hp2
          omega
        | some c0 =>
          rw [stepBlock_grow src st b c0 hl hhd hcur]
          refine ⟨hs, ?_⟩
          intro c hcr p hp
          have hceq := Option.some.inj hcr
          rw [← hceq] at hp
          have hp2 : c0.startPage = some p := hp
          exact hc c0 hcur p hp2
    · cases hcur : st.cur with
      | none =>
        rw [stepBlock_auto src st b hl hht hcur]
        refine ⟨hs, ?_⟩
        intro c hcr p hp
        have hceq := Option.some.inj hcr
        rw [← hceq] at hp
        have hp2 : some ((firstPageOf b).getD 1) = some p := hp
        rw [hfp] at hp2
        simp only [Option.getD_some, Option.some.injEq] at hp2
        omega
      | some c0 =>
        rw [stepBlock_grow src st b c0 hl hht hcur]
        refine ⟨hs, ?_⟩
        intro c hcr p hp
        have hceq := Option.some.inj hcr
        rw [← hceq] at hp
        have hp2 : c0.startPage = some p := hp
        exact hc c0 hcur p hp2

end Chatbot

namespace Chatbot

theorem foldBlocks_inv (src : Str) (n : ℕ) (hn : 1 ≤ n) :
    ∀ (bs : List Str) (st : SectState),
      (∀ b ∈ bs, BlockOK n b) →
      SecsOrdered st.secs → CurBounded n st.cur →
      SecsOrdered (bs.foldl (stepBlock src) st).secs ∧
        CurBounded n (bs.foldl (stepBlock src) st).cur := by
  intro bs
  induction bs with
  | nil =>
    intro st _ hs hc
    exact ⟨hs, hc⟩
  | cons b bs2 ih =>
    intro st hbs hs hc
    rw [List.foldl_cons]
    have h1 := stepBlock_inv src n st b hn (hbs b (List.mem_cons_self b bs2)) hs hc
    exact ih _ (fun x hx => hbs x (List.mem_cons_of_mem b hx)) h1.1 h1.2

theorem headerPhase_ordered (rp : List Str) (src : Str)
    (hp : ∀ t ∈ rp, pfree t) :
    SecsOrdered (headerPhaseSections rp src) := by
  by_cases hrp : rp = []
  · subst hrp
    intro s hsmem a e hsa hse
    have hnil : headerPhaseSections [] src = [] := rfl
    rw [hnil] at hsmem
    cases hsmem
  · have hn : 1 ≤ rp.length := by
      cases rp with
      | nil => exact absurd rfl hrp
      | cons x xs => simp
    have hfold := foldBlocks_inv src rp.length hn (blocksOf rp)
      { secs := [], cur := none, autoIndex := 1, nextId := 0 }
      (blocks_ok rp hp)
      (by
        intro s hs2 a e h1 h2
        cases (show s ∈ ([] : List Section) from hs2))
      (by
        intro c hc2 p hp2
        exact Option.noConfusion (show (none : Option CurSec) = some c from hc2))
    intro s hsmem a e hsa hse
    unfold headerPhaseSections at hsmem
    rcases flushSec_mem src _ (some rp.length) s hsmem with hm1 | ⟨c, hcur, hcs, hce⟩
    · exact hfold.1 s hm1 a e hsa hse
    · rw [hcs] at hsa
      have ha := hfold.2 c hcur a hsa
      rw [hce] at hse
      have he := Option.some.inj hse
      omega

theorem fbGo_ordered (src : Str) (total : ℕ) :
    ∀ (fuel : ℕ) (rem : List Str) (i nid : ℕ),
      i + rem.length ≤ total →
      ∀ s ∈ fbGo src total fuel rem i nid,
        ∀ a e, s.startPage = some a → s.endPage = some e → a ≤ e := by
  intro fuel
  induction fuel with
  | zero =>
    intro rem i nid _ s hs
    cases (show s ∈ ([] : List Section) from hs)
  | succ f ih =>
    intro rem i nid hle s hs
    cases rem with
    | nil => cases (show s ∈ ([] : List Section) from hs)
    | cons p rest =>
      rw [fbGo] at hs
      rcases List.mem_cons.mp hs with h1 | h2
      · intro a e hsa hse
        rw [h1] at hsa hse
        have hsa2 : some (i + 1) = some a := hsa
        have hse2 : some (min (i + 8) total) = some e := hse
        have ha := Option.some.inj hsa2
        have he := Option.some.inj hse2
        have hlen : 1 ≤ (p :: rest).length := by simp
        omega
      · by_cases h8 : 8 ≤ (p :: rest).length
        · refine ih (List.drop 8 (p :: rest)) (i + 8) (nid + 1) ?_ s h2
          have hdl : (List.drop 8 (p :: rest)).length = (p :: rest).length - 8 := by
            simp
          omega
        · have hdn : List.drop 8 (p :: rest) = [] := by
            apply List.drop_eq_nil_of_le
            omega
          rw [hdn] at h2
          cases f with
          | zero => cases (show s ∈ ([] : List Section) from h2)
          | succ f2 => cases (show s ∈ ([] : List Section) from h2)

theorem splitChapters_pages_ordered (rp : List Str) (src : Str)
    (hp : ∀ t ∈ rp, pfree t) :
    ∀ s ∈ splitChapters rp src, ∀ a e,
      s.startPage = some a → s.endPage = some e → a ≤ e := by
  intro s hs
  unfold splitChapters at hs
  by_cases hh : headerPhaseSections rp src = []
  · rw [if_pos hh] at hs
    exact fbGo_ordered src rp.length rp.length rp 0 0 (by omega) s hs
  · rw [if_neg hh] at hs
    exact headerPhase_ordered rp src hp s hs

end Chatbot

namespace Chatbot

/-- Counterexample to C2 as frozen: on a single page whose text contains the
literal text of an inline page marker, splitChapters emits a section carrying
startPage 1 and endPage 0, so startPage is not bounded by endPage. The fake
marker in the page body becomes the first marker of the header block, and the
flush on the header match sets the closed section's endPage to that marker
minus one. -/
theorem sectioner_page_order_counterexample :
    ∃ s ∈ splitChapters
        ["xxxxxxxxxxxxxxxxxxxxxxxxxxxxxxxxxxxxxxxxxxxxxxxxxxxxxxxxxxxx\n\nHeader One\n[[PAGE:1]]".data]
        "s".data,
      s.startPage = some 1 ∧ s.endPage = some 0 ∧ ¬ (1 : ℕ) ≤ 0 := by
  decide

/-- CLAIM C2 (amended). For every input page-text sequence in which no page
text contains the marker opener `[[PAGE:` (so the only markers in the tagged
document are the ones the sectioner itself inserts), every Section returned
by splitChapters that carries both a startPage and an endPage satisfies
startPage ≤ endPage. -/
theorem sectioner_start_le_end (rp : List Str) (src : Str)
    (hp : ∀ t ∈ rp, strIncludes t "[[PAGE:".data = false) :
    ∀ s ∈ splitChapters rp src, ∀ a e,
      s.startPage = some a → s.endPage = some e → a ≤ e :=
  splitChapters_pages_ordered rp src
    (fun t ht => (pfree_iff_strIncludes t).mpr (hp t ht))

/-- Witness for the amended C2 at a concrete marker-free input. -/
theorem sectioner_start_le_end_witness :
    (∀ t ∈ (["Alpha beta gamma.".data] : List Str),
      strIncludes t "[[PAGE:".data = false) ∧
    (∀ s ∈ splitChapters ["Alpha beta gamma.".data] "s".data, ∀ a e,
      s.startPage = some a → s.endPage = some e → a ≤ e) :=
  ⟨by decide, sectioner_start_le_end ["Alpha beta gamma.".data] "s".data (by decide)⟩

end Chatbot
